import Mathlib

/-!
Verification development for the capability-router core
(Self-Optimizing Agent Coordination & Response System).

The TypeScript sources are shallowly embedded:
* JS objects/records carried opaquely by the core become `JsonRecord`
  (a flat association list; the core never inspects payload structure).
* JS numbers used by the scorer become exact rationals `ℚ`.
* Machine time (`Date.now()`) becomes an explicit `Nat` parameter.
* Third-party libraries (Ajv schema validation, Luxon timezone math) are
  modelled extensionally: a compiled JSON schema is a boolean-valued
  predicate, and the timezone view of an instant is a `LocalTime` value
  (weekday 1..7, hour, minute) supplied per timezone name.
* `async` control flow is sequential: within one `plan` call the only
  suspension points are executor awaits, and the JS event loop guarantees
  the synchronous sections between them run without interleaving, so the
  abort signal is modelled as one boolean observation per attempt.
-/

/-- Flat JSON scalar. The router treats inputs/outputs opaquely, so nested
structure is never consulted; a flat record suffices for every claim. -/
inductive JsonVal where
  | str : String → JsonVal
  | num : Int → JsonVal
  | bool : Bool → JsonVal
  | null : JsonVal
  deriving DecidableEq, Repr

/-- A JS object as carried by the core (`Record<string, unknown>`). -/
abbrev JsonRecord := List (String × JsonVal)

/-- First-match association-list lookup (JS `map[key]` / `Map.get`). -/
def alistGet {α : Type} (l : List (String × α)) (k : String) : Option α :=
  (l.find? (fun p => p.1 = k)).map (fun p => p.2)

/-- JS `String.prototype.split` with a one-character separator (accumulator
holds the current field, reversed). -/
def jsSplitAux (sep : Char) : List Char → List Char → List String
  | [], acc => [String.mk acc.reverse]
  | c :: cs, acc =>
      if c = sep then String.mk acc.reverse :: jsSplitAux sep cs []
      else jsSplitAux sep cs (c :: acc)

/-- JS `s.split(sep)` for a single-character separator. -/
def jsSplit (sep : Char) (s : String) : List String :=
  jsSplitAux sep s.data []

/-- JS `String.prototype.trim`. -/
def jsTrim (s : String) : String :=
  String.mk (((s.data.dropWhile Char.isWhitespace).reverse.dropWhile Char.isWhitespace).reverse)

/-- A JS number as produced by `Number(...)` on the strings reachable in
hour fields (trimmed, and containing no `' '`, `'-'` or `':'`, all consumed
by the surrounding splits — in particular no negative values): `NaN`,
`+Infinity`, or a non-negative finite value kept as the exact unreduced
fraction `num / den` with `den` a positive power of ten.  The rounding of a
decimal literal to a binary double is idealized as exact; the deviation is
sub-ULP and below the minute resolution at which the policy compares
times. -/
inductive JsNum where
  | nan
  | inf
  | finite (num den : Nat)
  deriving DecidableEq, Repr

/-- Value of a list of decimal digits, most significant first. -/
def digitsToNat (ds : List Char) : Nat :=
  ds.foldl (fun n c => n * 10 + (c.toNat - 48)) 0

/-- Value of one digit in base `b` (hex letters for `b = 16`). -/
def radixDigit? (b : Nat) (c : Char) : Option Nat :=
  let v :=
    if c.isDigit then c.toNat - 48
    else if 'a' ≤ c ∧ c ≤ 'f' then c.toNat - 87
    else if 'A' ≤ c ∧ c ≤ 'F' then c.toNat - 55
    else 16
  if v < b then some v else none

/-- Body of a `0x`/`0o`/`0b` integer literal: non-empty and fully made of
base-`b` digits, else `NaN`. -/
def radixVal (b : Nat) (cs : List Char) : Option Nat :=
  match cs with
  | [] => none
  | _ =>
      cs.foldl (fun acc c =>
        match acc, radixDigit? b c with
        | some n, some v => some (n * b + v)
        | _, _ => none) (some 0)

/-- ECMA `StrUnsignedDecimalLiteral` without `Infinity`:
`digits [. digits] [e|E [+] digits]`, needing at least one digit before any
exponent and full consumption.  (A `-` — hence a negative exponent — cannot
occur: the caller has already split on `'-'`.) -/
def parseDecimal (cs : List Char) : JsNum :=
  let ipr := cs.span Char.isDigit
  let fpr :=
    match ipr.2 with
    | '.' :: rest => rest.span Char.isDigit
    | _ => ([], ipr.2)
  if ipr.1 = [] ∧ fpr.1 = [] then .nan
  else
    let num0 := digitsToNat ipr.1 * 10 ^ fpr.1.length + digitsToNat fpr.1
    let den := 10 ^ fpr.1.length
    match fpr.2 with
    | [] => .finite num0 den
    | e :: r3 =>
        if e = 'e' ∨ e = 'E' then
          let r4 := match r3 with | '+' :: rest => rest | _ => r3
          let edr := r4.span Char.isDigit
          if edr.1 ≠ [] ∧ edr.2 = [] then .finite (num0 * 10 ^ digitsToNat edr.1) den
          else .nan
        else .nan

/-- Optional `+` sign, then `Infinity` or an unsigned decimal literal. -/
def parseSigned (cs : List Char) : JsNum :=
  let cs1 := match cs with | '+' :: rest => rest | _ => cs
  if cs1 = "Infinity".data then .inf else parseDecimal cs1

/-- JS `Number(s)` (ECMA-262 `StringNumericLiteral`) on the reachable
domain described at `JsNum`: the empty string is 0; an unsigned
`0x`/`0o`/`0b` integer literal; otherwise an optional `+`, then `Infinity`
or a decimal literal with optional fraction and (non-negative) exponent;
anything else is `NaN`. -/
def jsNumber (s : String) : JsNum :=
  match s.data with
  | [] => .finite 0 1
  | '0' :: x :: rest =>
      if x = 'x' ∨ x = 'X' then
        match radixVal 16 rest with
        | some v => .finite v 1
        | none => .nan
      else if x = 'o' ∨ x = 'O' then
        match radixVal 8 rest with
        | some v => .finite v 1
        | none => .nan
      else if x = 'b' ∨ x = 'B' then
        match radixVal 2 rest with
        | some v => .finite v 1
        | none => .nan
      else parseSigned ('0' :: x :: rest)
  | cs => parseSigned cs

/-- An hour-field value after the JS `(v || 0)` coercion: `NaN` (falsy) and
a missing field became 0, so only `+Infinity` or an exact non-negative
fraction remain; `den` is positive for every value the parser builds. -/
inductive JsMin where
  | inf
  | fin (num den : Nat)
  deriving DecidableEq, Repr

/-- JS `(v || 0)`: `NaN` coerces to 0 (callers encode a missing field —
`undefined || 0` — as `JsNum.nan` too); 0 stays 0. -/
def jsOr0 : JsNum → JsMin
  | .nan => .fin 0 1
  | .inf => .inf
  | .finite n d => .fin n d

/-- Multiplication by an integer constant (`h * 60`); `Infinity` absorbs. -/
def JsMin.mulNat : JsMin → Nat → JsMin
  | .inf, _ => .inf
  | .fin n d, k => .fin (n * k) d

/-- Addition (`h * 60 + m`); `Infinity` absorbs (no `-Infinity` exists, so
no `NaN` can arise). -/
def JsMin.add : JsMin → JsMin → JsMin
  | .inf, _ => .inf
  | .fin _ _, .inf => .inf
  | .fin n1 d1, .fin n2 d2 => .fin (n1 * d2 + n2 * d1) (d1 * d2)

/-- `v ≤ x` for an integer `x` (JS `nowMin >= startMin`): false from
`Infinity`, else by cross-multiplication. -/
def JsMin.leNat : JsMin → Nat → Bool
  | .inf, _ => false
  | .fin n d, x => n ≤ x * d

/-- `x ≤ v` (JS `nowMin <= endMin`): everything is at most `Infinity`. -/
def JsMin.natLe (x : Nat) : JsMin → Bool
  | .inf => true
  | .fin n d => x * d ≤ n

/-- The instant of a policy check as seen in one timezone: Luxon weekday
(1 = Mon .. 7 = Sun), hour and minute.  Luxon itself is an external
collaborator, so the conversion instant→zone→fields is the model's input. -/
structure LocalTime where
  weekday : Nat
  hour : Nat
  minute : Nat
  deriving DecidableEq, Repr

/-- The day-label table of `PolicyService.matchDay`. -/
def dayMap (s : String) : Option Nat :=
  if s = "Mon" then some 1
  else if s = "Tue" then some 2
  else if s = "Wed" then some 3
  else if s = "Thu" then some 4
  else if s = "Fri" then some 5
  else if s = "Sat" then some 6
  else if s = "Sun" then some 7
  else none

/-- `PolicyService.matchDay`: single day `"Mon"` or inclusive range
`"Mon-Fri"`; unknown labels and missing range ends reject. -/
def matchDay (weekday : Nat) (spec : String) : Bool :=
  if spec.data.contains '-' then
    let parts := (jsSplit '-' spec).map jsTrim
    match parts.get? 0, parts.get? 1 with
    | some a, some b =>
        if a = "" ∨ b = "" then false
        else
          match dayMap a, dayMap b with
          | some ds, some de => decide (ds ≤ weekday ∧ weekday ≤ de)
          | _, _ => false
    | _, _ => false
  else
    match dayMap spec with
    | some d => decide (weekday = d)
    | none => false

/-- `PolicyService.hmToMinutes`: minutes since midnight via
`split(':').map(Number)` and `(h || 0) * 60 + (m || 0)`; a missing field or
a `NaN` coerces to 0, every other value keeps JS number semantics
(fractions, exponents, hex, `Infinity`). -/
def hmToMinutes (hhmm : String) : JsMin :=
  let parts := (jsSplit ':' hhmm).map jsNumber
  let h := jsOr0 ((parts.get? 0).getD .nan)
  let m := jsOr0 ((parts.get? 1).getD .nan)
  (h.mulNat 60).add m

/-- The day part of a window spec: first space-separated field, trimmed
(`window.split(' ')` with `daysPartRaw ?? ''`). -/
def windowDaysPart (window : String) : String :=
  (((jsSplit ' ' window).map jsTrim).get? 0).getD ""

/-- The hours part of a window spec: second space-separated field, trimmed
(`hoursPartRaw ?? ''`). -/
def windowHoursPart (window : String) : String :=
  (((jsSplit ' ' window).map jsTrim).get? 1).getD ""

/-- `PolicyService.inWindow`: day gate first, whole-day match when no hours
part, otherwise an end-inclusive minute-resolution range check.  (The
source splits the window once and projects both fields; projecting twice is
the same computation.) -/
def inWindow (now : LocalTime) (window : String) : Bool :=
  let daysPart := windowDaysPart window
  let hoursPart := windowHoursPart window
  if ¬ matchDay now.weekday daysPart then false
  else if hoursPart.length = 0 then true
  else
    let hp := (jsSplit '-' hoursPart).map jsTrim
    match hp.get? 0, hp.get? 1 with
    | some startRaw, some endRaw =>
        if startRaw = "" ∨ endRaw = "" then false
        else
          let startMin := hmToMinutes startRaw
          let endMin := hmToMinutes endRaw
          let nowMin := now.hour * 60 + now.minute
          startMin.leNat nowMin && JsMin.natLe nowMin endMin
    | _, _ => false

/-- `PolicyService.inAnyWindow`. -/
def inAnyWindow (now : LocalTime) (windows : List String) : Bool :=
  windows.any (inWindow now)

/-- An Ajv-compiled JSON schema, modelled extensionally as the boolean
verdict it produces on a payload.  `PolicyService.compile` caches the
compiled function per capability; the cache is semantics-preserving, so the
model applies the predicate directly. -/
abbrev JSONSchema := JsonRecord → Bool

/-- `timeWindows` block of a tenant policy (`policy/model.ts`). -/
structure TimeWindows where
  tz : Option String := none
  allow : Option (List String) := none

/-- `TenantPolicy` (`policy/model.ts`). -/
structure TenantPolicy where
  allowCapabilities : Option (List String) := none
  denyCapabilities : Option (List String) := none
  timeWindows : Option TimeWindows := none
  preSchemas : Option (List (String × JSONSchema)) := none
  postSchemas : Option (List (String × JSONSchema)) := none

/-- `PolicyDoc` (`policy/model.ts`); `schemaVersion` is the literal "1.0"
and is not modelled. -/
structure PolicyDoc where
  tenants : Option (List (String × TenantPolicy)) := none
  default : Option TenantPolicy := none

/-- `PreDecision`: `{allow:true}` or `{allow:false, code, detail}`. -/
inductive PreDecision where
  | allow : PreDecision
  | deny (code : String) (detail : String) : PreDecision
  deriving DecidableEq, Repr

/-- `PostDecision`: `{pass:true}` or `{pass:false, code, detail}`. -/
inductive PostDecision where
  | pass : PostDecision
  | fail (code : String) (detail : String) : PostDecision
  deriving DecidableEq, Repr

/-- `PolicyService.rulesFor`: `tenants[tenant]` when the tenant string is
truthy and the entry exists, else `default`, else the empty policy. -/
def rulesFor (doc : PolicyDoc) (tenant : Option String) : TenantPolicy :=
  match tenant, doc.tenants with
  | some t, some m =>
      if t = "" then doc.default.getD {}
      else
        match alistGet m t with
        | some p => p
        | none => doc.default.getD {}
  | _, _ => doc.default.getD {}

/-- Step 3 of `preCheck`: the time-window rejection, when it applies
(`rules.timeWindows?.allow` defined and non-empty, moment outside every
window in the `tz ?? 'UTC'` zone). -/
def timeDenyOf (rules : TenantPolicy) (tzView : String → LocalTime) :
    Option PreDecision :=
  match rules.timeWindows with
  | some tw =>
      match tw.allow with
      | some ws =>
          if ws.length > 0 then
            let tz := tw.tz.getD "UTC"
            if inAnyWindow (tzView tz) ws then none
            else some (PreDecision.deny "TIME_DENIED"
              ("Outside allowed windows (" ++ tz ++ ")"))
          else none
      | none => none
  | none => none

/-- Steps 3-5 of `preCheck` (time windows, pre-schema, allow); split out so
each rejection rule can be reasoned about in isolation. -/
def preCheckAfterDeny (rules : TenantPolicy) (tzView : String → LocalTime)
    (capability : String) (input : JsonRecord) : PreDecision :=
  match timeDenyOf rules tzView with
  | some d => d
  | none =>
      match (rules.preSchemas.getD []).find? (fun p => p.1 = capability) with
      | some p =>
          if p.2 input then .allow
          else .deny "INPUT_INVALID" "Pre-schema validation failed"
      | none => .allow

/-- Steps 2-5 of `preCheck` (deny-list onwards). -/
def preCheckAfterAllow (rules : TenantPolicy) (tzView : String → LocalTime)
    (capability : String) (input : JsonRecord) : PreDecision :=
  match rules.denyCapabilities with
  | some denyList =>
      if capability ∈ denyList then
        .deny "CAPABILITY_DENIED" "Listed in denyCapabilities"
      else preCheckAfterDeny rules tzView capability input
  | none => preCheckAfterDeny rules tzView capability input

/-- `PolicyService.preCheck`.  `tzView` is the Luxon collaborator: the
local-time view of the (fixed) check instant in a named timezone. -/
def preCheck (doc : PolicyDoc) (tzView : String → LocalTime)
    (tenant : Option String) (capability : String) (input : JsonRecord) : PreDecision :=
  let rules := rulesFor doc tenant
  match rules.allowCapabilities with
  | some allowList =>
      if capability ∉ allowList then
        .deny "CAPABILITY_DENIED" "Not in allowCapabilities"
      else preCheckAfterAllow rules tzView capability input
  | none => preCheckAfterAllow rules tzView capability input

/-- `PolicyService.postCheck`: validate output against the capability's
post-schema when one exists. -/
def postCheck (doc : PolicyDoc) (tenant : Option String) (capability : String)
    (output : JsonRecord) : PostDecision :=
  let rules := rulesFor doc tenant
  match (rules.postSchemas.getD []).find? (fun p => p.1 = capability) with
  | none => .pass
  | some p =>
      if p.2 output then .pass
      else .fail "POST_CONDITION_FAILED" "Post-schema validation failed"

/-- `Capability` (`registry/model.ts`): documentation-only input/output
type maps. -/
structure Capability where
  name : String
  inputs : List (String × String) := []
  outputs : List (String × String) := []
  deriving DecidableEq, Repr

/-- `SLATarget` (`registry/model.ts`). -/
structure SLATarget where
  p95_ms : Nat
  success_rate_min : ℚ
  deriving DecidableEq, Repr

/-- `Preconditions` (`registry/model.ts`); `env` maps required variable
names to (unused) descriptions. -/
structure Preconditions where
  requiresNetwork : Option Bool := none
  requiresVpn : Option Bool := none
  env : Option (List (String × String)) := none
  deriving DecidableEq, Repr

/-- Endpoint `type` tag. -/
inductive EndpointType where
  | http
  | rpa
  deriving DecidableEq, Repr

/-- `endpoint` field of a tool (`registry/model.ts`). -/
structure Endpoint where
  type : EndpointType
  url : Option String := none
  script : Option String := none
  timeout_ms : Option Nat := none
  deriving DecidableEq, Repr

/-- `Tool` (`registry/model.ts`).  `cost_estimate` is a JS number; the
scorer's arithmetic is modelled over exact rationals. -/
structure Tool where
  id : String
  name : String
  version : String
  description : Option String := none
  capabilities : List Capability
  cost_estimate : Option ℚ := none
  sla : Option SLATarget := none
  preconditions : Option Preconditions := none
  endpoint : Option Endpoint := none
  deriving DecidableEq, Repr

/-- `clamp01` (`planner/scoring.simple.ts`). -/
def clamp01 (x : ℚ) : ℚ := max 0 (min 1 x)

/-- `slaLikelihood`: lower p95 → higher likelihood; missing SLA treated as
`p95_ms = 3000`. -/
def slaLikelihood (tool : Tool) : ℚ :=
  let p95 : ℚ := ((tool.sla.map (fun s => s.p95_ms)).getD 3000 : Nat)
  clamp01 (1 - min p95 5000 / 5000)

/-- `pastReward`: neutral placeholder. -/
def pastReward (_tool : Tool) : ℚ := 1 / 2

/-- `capabilityFit`: constant 1.0 (the capability gate is upstream). -/
def capabilityFit (_tool : Tool) (_capability : String) (_input : JsonRecord) : ℚ := 1

/-- Scorer weights (`DEFAULT_WEIGHTS`). -/
structure Weights where
  wFit : ℚ
  wSla : ℚ
  wReward : ℚ
  wCost : ℚ
  deriving DecidableEq, Repr

/-- `DEFAULT_WEIGHTS` of `SimpleScorer`. -/
def DEFAULT_WEIGHTS : Weights :=
  { wFit := 45 / 100, wSla := 25 / 100, wReward := 15 / 100, wCost := 15 / 100 }

/-- `SimpleScorer.score`.  Over exact rationals the computed value is
always finite, so the source's `Number.isFinite` guard (which maps a
non-finite float to `-Infinity`) can never fire and is omitted. -/
def SimpleScorer.score (w : Weights) (tool : Tool) (capability : String)
    (input : JsonRecord) : ℚ :=
  let fit := capabilityFit tool capability input
  let sla := slaLikelihood tool
  let reward := pastReward tool
  let cost := tool.cost_estimate.getD 0
  w.wFit * fit + w.wSla * sla + w.wReward * reward - w.wCost * cost

/-- Execution status tag of `ExecutionResult` (`planner/contracts.ts`). -/
inductive ExecStatus where
  | success
  | failure
  | timeout
  deriving DecidableEq, Repr

/-- `ExecutionResult` (`planner/contracts.ts`). -/
structure ExecutionResult where
  status : ExecStatus
  latency_ms : Option Nat := none
  error : Option String := none
  output : Option JsonRecord := none
  deriving DecidableEq, Repr

/-- `PlanContext` (`planner/contracts.ts`); `text`/`context` are carried but
never consulted by the planner.  `tenant` is forwarded by the `/plan` route
and consumed only by the policy-aware planner. -/
structure PlanContext where
  tenant : Option String := none
  capability : Option String := none
  text : Option String := none
  input : Option JsonRecord := none
  context : Option JsonRecord := none
  timeout_ms : Option Nat := none
  execute : Option Bool := none

/-- `ScoredCandidate` (`planner/contracts.ts`). -/
structure ScoredCandidate where
  toolId : String
  score : ℚ
  deriving DecidableEq, Repr

/-- `PlanResult` (`planner/contracts.ts`); `selected` keeps only the
`toolId` as in the source. -/
structure PlanResult where
  traceId : String
  capability : String
  candidates : List ScoredCandidate
  selected : Option String := none
  execution : Option ExecutionResult := none
  deriving DecidableEq, Repr

/-- What one executor await can do: resolve with an `ExecutionResult` or
reject (the `catch` path of `Planner.plan`). -/
inductive ExecOutcome where
  | ok (r : ExecutionResult)
  | thrown (msg : String)
  deriving DecidableEq, Repr

/-- Environment of one `plan` call: for the `i`-th attempt (0-based), the
executor's outcome, and whether the overall `AbortController` signal is in
the aborted state during that attempt's post-await synchronous section.
(The abort can only flip between awaits, so one observation per attempt is
exact; it is only effective when the overall timer was armed.) -/
structure PlanEnv where
  outcome : Nat → ExecOutcome
  abortedDuring : Nat → Bool

/-- `supportsCapability` (`planner/planner.ts`). -/
def supportsCapability (t : Tool) (capability : String) : Bool :=
  t.capabilities.any (fun c => c.name = capability)

/-- Truthiness of `process.env[k]` (present and non-empty). -/
def envTruthy (procEnv : List (String × String)) (k : String) : Bool :=
  match alistGet procEnv k with
  | some v => v ≠ ""
  | none => false

/-- `preconditionsOk` (`planner/planner.ts`): `requiresNetwork` tools are
rejected when an `OFFLINE` variable exists (any value, even empty), and
every name in `preconditions.env` must be bound to a truthy value. -/
def preconditionsOk (procEnv : List (String × String)) (offlinePresent : Bool)
    (t : Tool) : Bool :=
  let pre := t.preconditions.getD {}
  if pre.requiresNetwork.getD false && offlinePresent then false
  else
    match pre.env with
    | none => true
    | some kvs => kvs.all (fun kv => envTruthy procEnv kv.1)

/-- Descending-score insertion keeping existing elements ahead on ties. -/
def insertDesc (c : ScoredCandidate × Tool) :
    List (ScoredCandidate × Tool) → List (ScoredCandidate × Tool)
  | [] => [c]
  | x :: xs =>
      if c.1.score > x.1.score then c :: x :: xs
      else x :: insertDesc c xs

/-- `sort((a, b) => b.score - a.score)`: stable descending sort (V8's
`Array.prototype.sort` is stable, and the comparator realises descending
numeric order on the finite scores produced here). -/
def sortByScoreDesc (l : List (ScoredCandidate × Tool)) :
    List (ScoredCandidate × Tool) :=
  l.foldl (fun acc c => insertDesc c acc) []

/-- Step 1 of `Planner.plan`: candidate discovery (capability gate then
preconditions gate over the registry snapshot). -/
def discoverCandidates (procEnv : List (String × String)) (offlinePresent : Bool)
    (tools : List Tool) (capability : String) : List Tool :=
  tools.filter (fun t =>
    supportsCapability t capability && preconditionsOk procEnv offlinePresent t)

/-- Step 2 of `Planner.plan`: score every candidate and stable-sort
descending by score. -/
def rankCandidates (score : Tool → String → JsonRecord → ℚ)
    (candidates : List Tool) (capability : String) (input : JsonRecord) :
    List (ScoredCandidate × Tool) :=
  sortByScoreDesc
    (candidates.map (fun t => ({ toolId := t.id, score := score t capability input }, t)))

/-- Normalisation of one executor await (`try`/`catch` of `Planner.plan`):
a rejection becomes `timeout` when the overall signal has fired, else
`failure`, each carrying the thrown message. -/
def normalizeOutcome (env : PlanEnv) (hasTimer : Bool) (i : Nat) : ExecutionResult :=
  match env.outcome i with
  | .ok r => r
  | .thrown msg =>
      if hasTimer && env.abortedDuring i then
        { status := .timeout, error := some msg }
      else
        { status := .failure, error := some msg }

/-- Output of the execution loop: the trace-event types it records (in
order), the selected tool, and the terminal `ExecutionResult`. -/
structure LoopRes where
  events : List String
  selected : Option String
  execution : ExecutionResult
  deriving DecidableEq, Repr

/-- The execute-with-fallback loop of `Planner.plan` (steps 3-4), over the
ranked candidates with `i` the 0-based attempt index:
success is terminal; a reported `timeout` is terminal; `failure` records a
`fallback` event, then surfaces a terminal `timeout` if the overall
deadline elapsed, else advances; an exhausted list is
`ALL_CANDIDATES_FAILED`. -/
def execLoop (env : PlanEnv) (hasTimer : Bool) :
    Nat → List (ScoredCandidate × Tool) → LoopRes
  | _, [] =>
      { events := ["failure"], selected := none,
        execution := { status := .failure, error := some "ALL_CANDIDATES_FAILED" } }
  | i, c :: rest =>
      let execRes := normalizeOutcome env hasTimer i
      if execRes.status = .success then
        { events := ["attempt", "selected", "success"], selected := some c.2.id,
          execution := execRes }
      else if execRes.status = .timeout then
        { events := ["attempt", "timeout"], selected := none, execution := execRes }
      else if hasTimer && env.abortedDuring i then
        { events := ["attempt", "fallback", "timeout"], selected := none,
          execution := { status := .timeout, error := some "overall-timeout" } }
      else
        let r := execLoop env hasTimer (i + 1) rest
        { events := "attempt" :: "fallback" :: r.events, selected := r.selected,
          execution := r.execution }

/-- `Planner.plan` (the executor-facing core, `planner/planner.ts`): the
returned `PlanResult` paired with the ordered list of trace-event types the
call records under its trace id.  `traceId` is the id handed out by
`TraceStore.create`; `offlinePresent` is `typeof process.env.OFFLINE !==
'undefined'`. -/
def plan (env : PlanEnv) (score : Tool → String → JsonRecord → ℚ)
    (procEnv : List (String × String)) (offlinePresent : Bool)
    (tools : List Tool) (traceId : String) (ctx : PlanContext) :
    PlanResult × List String :=
  let execute := ctx.execute ≠ some false
  let capability := ctx.capability.getD ""
  if capability = "" then
    ({ traceId := traceId, capability := "", candidates := [],
       execution := some { status := .failure, error := some "INPUT_INVALID" } },
     ["request", "failure"])
  else
    let candidates := discoverCandidates procEnv offlinePresent tools capability
    if candidates.isEmpty then
      ({ traceId := traceId, capability := capability, candidates := [],
         execution := some { status := .failure, error := some "NO_CANDIDATES" } },
       ["request", "no_candidates", "failure"])
    else
      let input := ctx.input.getD []
      let scored := rankCandidates score candidates capability input
      let base : PlanResult :=
        { traceId := traceId, capability := capability,
          candidates := scored.map (fun s => s.1) }
      if ¬ execute then
        match scored with
        | [] => (base, ["request", "scores"])
        | s :: _ =>
            ({ base with selected := some s.1.toolId },
             ["request", "scores", "selected"])
      else
        let hasTimer :=
          match ctx.timeout_ms with
          | some t => decide (0 < t)
          | none => false
        let L := execLoop env hasTimer 0 scored
        ({ base with selected := L.selected, execution := some L.execution },
         "request" :: "scores" :: L.events)

/-- Modelled from the spec: the execute-with-fallback loop of the
policy-aware `Planner` (`src/planner/planner.ts`), which is present in the
repository only through its tests and the `/plan` wiring, not under the
shipped sources.  Per spec §4.4: a `success` goes through `postCheck`; on
pass it is terminal, on fail the planner emits `post_fallback` and advances
as for a `failure` (including the overall-deadline check after the step).
All other transitions are exactly those of `execLoop`. -/
def execLoopP (doc : PolicyDoc) (tenant : Option String) (capability : String)
    (env : PlanEnv) (hasTimer : Bool) :
    Nat → List (ScoredCandidate × Tool) → LoopRes
  | _, [] =>
      { events := ["failure"], selected := none,
        execution := { status := .failure, error := some "ALL_CANDIDATES_FAILED" } }
  | i, c :: rest =>
      let execRes := normalizeOutcome env hasTimer i
      if execRes.status = .success then
        match postCheck doc tenant capability (execRes.output.getD []) with
        | .pass =>
            { events := ["attempt", "selected", "success"], selected := some c.2.id,
              execution := execRes }
        | .fail _ _ =>
            if hasTimer && env.abortedDuring i then
              { events := ["attempt", "post_fallback", "timeout"], selected := none,
                execution := { status := .timeout, error := some "overall-timeout" } }
            else
              let r := execLoopP doc tenant capability env hasTimer (i + 1) rest
              { events := "attempt" :: "post_fallback" :: r.events,
                selected := r.selected, execution := r.execution }
      else if execRes.status = .timeout then
        { events := ["attempt", "timeout"], selected := none, execution := execRes }
      else if hasTimer && env.abortedDuring i then
        { events := ["attempt", "fallback", "timeout"], selected := none,
          execution := { status := .timeout, error := some "overall-timeout" } }
      else
        let r := execLoopP doc tenant capability env hasTimer (i + 1) rest
        { events := "attempt" :: "fallback" :: r.events, selected := r.selected,
          execution := r.execution }

/-- Modelled from the spec: `plan` of the policy-aware `Planner` — identical
to `plan` outside the execution loop, with `execLoopP` driving post-check
fallback. -/
def planP (doc : PolicyDoc) (env : PlanEnv) (score : Tool → String → JsonRecord → ℚ)
    (procEnv : List (String × String)) (offlinePresent : Bool)
    (tools : List Tool) (traceId : String) (ctx : PlanContext) :
    PlanResult × List String :=
  let execute := ctx.execute ≠ some false
  let capability := ctx.capability.getD ""
  if capability = "" then
    ({ traceId := traceId, capability := "", candidates := [],
       execution := some { status := .failure, error := some "INPUT_INVALID" } },
     ["request", "failure"])
  else
    let candidates := discoverCandidates procEnv offlinePresent tools capability
    if candidates.isEmpty then
      ({ traceId := traceId, capability := capability, candidates := [],
         execution := some { status := .failure, error := some "NO_CANDIDATES" } },
       ["request", "no_candidates", "failure"])
    else
      let input := ctx.input.getD []
      let scored := rankCandidates score candidates capability input
      let base : PlanResult :=
        { traceId := traceId, capability := capability,
          candidates := scored.map (fun s => s.1) }
      if ¬ execute then
        match scored with
        | [] => (base, ["request", "scores"])
        | s :: _ =>
            ({ base with selected := some s.1.toolId },
             ["request", "scores", "selected"])
      else
        let hasTimer :=
          match ctx.timeout_ms with
          | some t => decide (0 < t)
          | none => false
        let L := execLoopP doc ctx.tenant capability env hasTimer 0 scored
        ({ base with selected := L.selected, execution := some L.execution },
         "request" :: "scores" :: L.events)

/-- `TraceEvent` (`tracing/traceStore.ts`); the payload is `unknown` in the
source and never inspected by the store, so it is not modelled. -/
structure TraceEvent where
  ts : Nat
  type : String
  deriving DecidableEq, Repr

/-- `Trace` (`tracing/traceStore.ts`). -/
structure Trace where
  id : String
  createdAt : Nat
  events : List TraceEvent
  deriving DecidableEq, Repr

/-- `TraceStore` state: the id→trace map (insertion-keyed association list,
ids assumed distinct as `Map` guarantees) plus the insertion order list and
the two clamped bounds. -/
structure TraceStore where
  traces : List (String × Trace)
  order : List String
  maxTraces : Nat
  ttlMs : Nat
  deriving Repr

/-- JS `Map.set`: replace in place or append. -/
def alistSet {α : Type} : List (String × α) → String → α → List (String × α)
  | [], k, v => [(k, v)]
  | p :: ps, k, v => if p.1 = k then (k, v) :: ps else p :: alistSet ps k v

/-- `TraceStore` constructor: caps clamped with `Math.max(1, …)`, defaults
1000 traces / 15 minutes. -/
def mkTraceStore (maxTraces ttlMs : Option Nat) : TraceStore :=
  { traces := [], order := [],
    maxTraces := max 1 (maxTraces.getD 1000),
    ttlMs := max 1 (ttlMs.getD (15 * 60000)) }

/-- `TraceStore.isExpired`: `Date.now() - t.createdAt > ttlMs` (a clock that
ran backwards gives a negative difference in JS and `0` here; both fail the
strict comparison, since `ttlMs ≥ 1` in constructed stores). -/
def TraceStore.isExpired (st : TraceStore) (t : Trace) (now : Nat) : Bool :=
  now - t.createdAt > st.ttlMs

/-- `TraceStore.delete`: drop from the map and erase the first occurrence
in the order list. -/
def TraceStore.deleteTrace (st : TraceStore) (id : String) : TraceStore :=
  { st with traces := st.traces.filter (fun p => p.1 ≠ id),
            order := st.order.erase id }

/-- The ids the TTL pass of `prune` deletes: every id of the order
snapshot whose trace is expired. -/
def TraceStore.expiredIds (st : TraceStore) (now : Nat) : List String :=
  st.order.filter (fun i =>
    match alistGet st.traces i with
    | some t => st.isExpired t now
    | none => false)

/-- TTL pass of `prune`: delete every expired id from map and order. -/
def TraceStore.ttlPrune (st : TraceStore) (now : Nat) : TraceStore :=
  { st with traces := st.traces.filter (fun p => !((st.expiredIds now).contains p.1)),
            order := st.order.filter (fun i => !((st.expiredIds now).contains i)) }

/-- Capacity pass of `prune`: `while (order.length > maxTraces) shift()` —
evict the overflow prefix, oldest first. -/
def TraceStore.capPrune (st : TraceStore) : TraceStore :=
  { st with traces := st.traces.filter (fun p =>
      !((st.order.take (st.order.length - st.maxTraces)).contains p.1)),
            order := st.order.drop (st.order.length - st.maxTraces) }

/-- `TraceStore.prune`: TTL pass over a snapshot of the order list, then
evict oldest-first down to `maxTraces`. -/
def TraceStore.prune (st : TraceStore) (now : Nat) : TraceStore :=
  (st.ttlPrune now).capPrune

/-- `TraceStore.create` with the generated opaque id passed in (the source
draws it from `Math.random`; collision-resistance is assumed, so callers
supply a fresh id). -/
def TraceStore.create (st : TraceStore) (id : String) (now : Nat) : TraceStore :=
  TraceStore.prune
    { st with traces := alistSet st.traces id { id := id, createdAt := now, events := [] },
              order := st.order ++ [id] } now

/-- `TraceStore.record`: look the id up in the raw map (no expiry check in
the source) and append, or silently no-op when absent. -/
def TraceStore.record (st : TraceStore) (id : String) (type : String) (now : Nat) :
    TraceStore :=
  match alistGet st.traces id with
  | none => st
  | some t =>
      let ev : TraceEvent := { ts := now, type := type }
      { st with traces := alistSet st.traces id ({ t with events := t.events ++ [ev] }) }

/-- `TraceStore.get`: absent → `none`; expired → lazy delete and `none`;
else the live trace.  Returns the (possibly mutated) store alongside. -/
def TraceStore.get (st : TraceStore) (id : String) (now : Nat) :
    Option Trace × TraceStore :=
  match alistGet st.traces id with
  | none => (none, st)
  | some t =>
      if st.isExpired t now then (none, st.deleteTrace id)
      else (some t, st)

/-- A parsed registry-directory file (`fileRegistryLoader.ts`): an object
with truthy `tools` and `updatedAt` is treated as a whole registry
document, anything else as a single tool document. -/
inductive ParsedDoc where
  | registryDoc (tools : List Tool) (updatedAt : String)
  | toolDoc (t : Tool)
  deriving DecidableEq, Repr

/-- A directory entry handed to `loadAll`: file name plus parsed content. -/
structure RegFile where
  name : String
  doc : ParsedDoc
  deriving DecidableEq, Repr

/-- The `/\.(ya?ml|json)$/` extension filter of `loadAll`. -/
def matchesRegExt (name : String) : Bool :=
  (".yaml".data.isSuffixOf name.data) || (".yml".data.isSuffixOf name.data)
    || (".json".data.isSuffixOf name.data)

/-- `ToolRegistry` (`registry/validator.ts`). -/
structure ToolRegistry where
  tools : List Tool
  updatedAt : String
  deriving DecidableEq, Repr

/-- The accumulation loop of `FileRegistryLoader.loadAll`, with the two Ajv
validators (`validator.validateRegistry` / `validator.validateTool`)
abstracted as predicates: the first invalid matching file throws. -/
def loadAllAux (vReg : List Tool → String → Bool) (vTool : Tool → Bool) :
    List RegFile → List Tool → Except String (List Tool)
  | [], acc => .ok acc
  | f :: fs, acc =>
      if ¬ matchesRegExt f.name then loadAllAux vReg vTool fs acc
      else
        match f.doc with
        | .registryDoc ts u =>
            if vReg ts u then loadAllAux vReg vTool fs (acc ++ ts)
            else .error ("Invalid registry file " ++ f.name)
        | .toolDoc t =>
            if vTool t then loadAllAux vReg vTool fs (acc ++ [t])
            else .error ("Invalid tool file " ++ f.name)

/-- One `loadAll` run against the loader's published snapshot `current`:
on success the snapshot is replaced wholesale at the final assignment; a
validation failure throws first, so `current` — and hence `getRegistry()` —
is untouched.  The second component is the propagated error, if any. -/
def loadAllStep (vReg : List Tool → String → Bool) (vTool : Tool → Bool)
    (current : ToolRegistry) (files : List RegFile) (now : String) :
    ToolRegistry × Option String :=
  match loadAllAux vReg vTool files [] with
  | .error e => (current, some e)
  | .ok ts => ({ tools := ts, updatedAt := now }, none)

/-- `alistSet` on a fresh key appends; lookup then finds the new binding. -/
theorem alistGet_set_self {α : Type} (l : List (String × α)) (k : String) (v : α) :
    alistGet (alistSet l k v) k = some v := by
  induction l with
  | nil => simp [alistGet, alistSet]
  | cons p ps ih =>
      by_cases h : p.1 = k
      · simp [alistSet, h, alistGet]
      · simp [alistSet, h, alistGet, List.find?] at ih ⊢
        simpa [h] using ih

/-- `alistSet` leaves other keys' lookups unchanged. -/
theorem alistGet_set_other {α : Type} (l : List (String × α)) (k k2 : String) (v : α)
    (h : k2 ≠ k) : alistGet (alistSet l k v) k2 = alistGet l k2 := by
  induction l with
  | nil => simp [alistGet, alistSet, List.find?, Ne.symm h]
  | cons p ps ih =>
      by_cases hp : p.1 = k
      · have hk2 : ¬ p.1 = k2 := by rw [hp]; exact Ne.symm h
        simp [alistSet, hp, alistGet, List.find?, hk2, (Ne.symm h : ¬ k = k2)]
      · by_cases hp2 : p.1 = k2
        · simp [alistSet, hp, h, alistGet, List.find?, hp2]
        · simp only [alistSet, if_neg hp]
          simp [alistGet, List.find?, hp2] at ih ⊢
          exact ih

/-- `insertDesc` grows the list by one. -/
theorem insertDesc_length (c : ScoredCandidate × Tool) (l : List (ScoredCandidate × Tool)) :
    (insertDesc c l).length = l.length + 1 := by
  induction l with
  | nil => rfl
  | cons x xs ih =>
      by_cases h : c.1.score > x.1.score
      · simp [insertDesc, h]
      · simp [insertDesc, h, ih]

/-- `sortByScoreDesc` preserves length. -/
theorem sortByScoreDesc_length (l : List (ScoredCandidate × Tool)) :
    (sortByScoreDesc l).length = l.length := by
  have h : ∀ (m : List (ScoredCandidate × Tool)) (acc : List (ScoredCandidate × Tool)),
      (m.foldl (fun acc c => insertDesc c acc) acc).length = acc.length + m.length := by
    intro m
    induction m with
    | nil => intro acc; simp
    | cons x xs ih =>
        intro acc
        simp only [List.foldl_cons]
        rw [ih, insertDesc_length]
        simp only [List.length_cons]
        omega
  simpa [sortByScoreDesc] using h l []

/-- `rankCandidates` preserves the number of candidates. -/
theorem rankCandidates_length (score : Tool → String → JsonRecord → ℚ)
    (candidates : List Tool) (capability : String) (input : JsonRecord) :
    (rankCandidates score candidates capability input).length = candidates.length := by
  simp [rankCandidates, sortByScoreDesc_length]

/-- Sample tool used by witnesses: fast, cheap, SLA declared. -/
def toolFast : Tool :=
  { id := "fast", name := "Fast", version := "1.0.0",
    capabilities := [{ name := "patient.search" }],
    sla := some { p95_ms := 200, success_rate_min := 98 / 100 },
    cost_estimate := some (1 / 10) }

/-- Sample tool used by witnesses: slower and costlier. -/
def toolSlow : Tool :=
  { id := "slow", name := "Slow", version := "1.0.0",
    capabilities := [{ name := "patient.search" }],
    sla := some { p95_ms := 2000, success_rate_min := 97 / 100 },
    cost_estimate := some (2 / 10) }

/-- Sample tool used by witnesses: no SLA, no cost (all defaults). -/
def toolBad : Tool :=
  { id := "bad", name := "Bad", version := "1.0.0",
    capabilities := [{ name := "patient.search" }],
    endpoint := some { type := .http, url := some "http://bad", timeout_ms := some 50 } }

/-- Sample tool used by witnesses: no SLA, no cost (all defaults). -/
def toolGood : Tool :=
  { id := "good", name := "Good", version := "1.0.0",
    capabilities := [{ name := "patient.search" }],
    endpoint := some { type := .http, url := some "http://good", timeout_ms := some 50 } }

/-- C10: `SimpleScorer.score` is independent of the plan context — it is
determined solely by the tool's `sla.p95_ms` (default 3000 when the SLA is
absent) and `cost_estimate` (default 0), because the fit term is the
constant 1 and the reward term the constant 1/2; hence any two tools
agreeing on those two fields score identically under any two contexts, and
in particular one tool scores identically under every context. -/
theorem simpleScorer_score_context_independent
    (t1 t2 : Tool) (cap1 cap2 : String) (input1 input2 : JsonRecord)
    (hp95 : (t1.sla.map (fun s => s.p95_ms)).getD 3000
          = (t2.sla.map (fun s => s.p95_ms)).getD 3000)
    (hcost : t1.cost_estimate.getD 0 = t2.cost_estimate.getD 0) :
    SimpleScorer.score DEFAULT_WEIGHTS t1 cap1 input1
      = SimpleScorer.score DEFAULT_WEIGHTS t2 cap2 input2 := by
  simp [SimpleScorer.score, capabilityFit, pastReward, slaLikelihood, hp95, hcost]

/-- C10 witness: the same tool scored under two unrelated contexts. -/
theorem simpleScorer_score_context_independent_witness :
    SimpleScorer.score DEFAULT_WEIGHTS toolFast "patient.search" [("mrn", JsonVal.str "123")]
      = SimpleScorer.score DEFAULT_WEIGHTS toolFast "billing.charge" [] :=
  simpleScorer_score_context_independent toolFast toolFast "patient.search" "billing.charge"
    [("mrn", JsonVal.str "123")] [] rfl rfl

/-- Rule 1 passes: no allow-list configured, or the capability is listed. -/
def allowListOk (rules : TenantPolicy) (capability : String) : Prop :=
  ∀ l, rules.allowCapabilities = some l → capability ∈ l

/-- Rule 2 passes: no deny-list configured, or the capability is absent. -/
def denyListOk (rules : TenantPolicy) (capability : String) : Prop :=
  ∀ l, rules.denyCapabilities = some l → capability ∉ l

/-- Rule 3 passes: no non-empty allow windows, or the moment is inside one. -/
def timeWindowsOk (rules : TenantPolicy) (tzView : String → LocalTime) : Prop :=
  ∀ tw ws, rules.timeWindows = some tw → tw.allow = some ws → 0 < ws.length →
    inAnyWindow (tzView (tw.tz.getD "UTC")) ws = true

/-- When rule 3 passes, the time stage rejects nothing. -/
theorem timeDenyOf_eq_none (rules : TenantPolicy) (tzView : String → LocalTime)
    (h : timeWindowsOk rules tzView) : timeDenyOf rules tzView = none := by
  cases htw : rules.timeWindows with
  | none => simp [timeDenyOf, htw]
  | some tw =>
      cases hws : tw.allow with
      | none => simp [timeDenyOf, htw, hws]
      | some ws =>
          by_cases hlen : ws.length > 0
          · simp [timeDenyOf, htw, hws, hlen, h tw ws htw hws hlen]
          · simp [timeDenyOf, htw, hws, hlen]

/-- When rule 3 applies and the moment is outside every window, the time
stage rejects with `TIME_DENIED`. -/
theorem timeDenyOf_eq_some (rules : TenantPolicy) (tzView : String → LocalTime)
    (tw : TimeWindows) (ws : List String)
    (htw : rules.timeWindows = some tw) (hws : tw.allow = some ws)
    (hlen : 0 < ws.length)
    (hout : inAnyWindow (tzView (tw.tz.getD "UTC")) ws = false) :
    timeDenyOf rules tzView
      = some (.deny "TIME_DENIED"
          ("Outside allowed windows (" ++ tw.tz.getD "UTC" ++ ")")) := by
  simp [timeDenyOf, htw, hws, hlen, hout]

/-- When the allow-list rule passes, `preCheck` falls through to step 2. -/
theorem preCheck_eq_afterAllow (doc : PolicyDoc) (tzView : String → LocalTime)
    (tenant : Option String) (capability : String) (input : JsonRecord)
    (hallow : allowListOk (rulesFor doc tenant) capability) :
    preCheck doc tzView tenant capability input
      = preCheckAfterAllow (rulesFor doc tenant) tzView capability input := by
  cases hac : (rulesFor doc tenant).allowCapabilities with
  | none => simp [preCheck, hac]
  | some l => simp [preCheck, hac, hallow l hac]

/-- When the deny-list rule also passes, evaluation falls through to step 3. -/
theorem preCheckAfterAllow_eq_afterDeny (rules : TenantPolicy)
    (tzView : String → LocalTime) (capability : String) (input : JsonRecord)
    (hdeny : denyListOk rules capability) :
    preCheckAfterAllow rules tzView capability input
      = preCheckAfterDeny rules tzView capability input := by
  cases hdc : rules.denyCapabilities with
  | none => simp [preCheckAfterAllow, hdc]
  | some l => simp [preCheckAfterAllow, hdc, hdeny l hdc]

/-- C4: `preCheck` evaluates allow-list, deny-list, time windows, then
pre-schema in that strict order, and the first rejecting rule fixes the
decision: a defined allow-list missing the capability or a deny-list
containing it gives `CAPABILITY_DENIED`; a non-empty window list with the
moment outside every window gives `TIME_DENIED`; a defined pre-schema the
input fails gives `INPUT_INVALID`; otherwise the result is allow. -/
theorem preCheck_rule_order (doc : PolicyDoc) (tzView : String → LocalTime)
    (tenant : Option String) (capability : String) (input : JsonRecord) :
    (∀ l, (rulesFor doc tenant).allowCapabilities = some l → capability ∉ l →
       preCheck doc tzView tenant capability input
         = .deny "CAPABILITY_DENIED" "Not in allowCapabilities")
  ∧ (allowListOk (rulesFor doc tenant) capability →
     ∀ l, (rulesFor doc tenant).denyCapabilities = some l → capability ∈ l →
       preCheck doc tzView tenant capability input
         = .deny "CAPABILITY_DENIED" "Listed in denyCapabilities")
  ∧ (allowListOk (rulesFor doc tenant) capability →
     denyListOk (rulesFor doc tenant) capability →
     ∀ tw ws, (rulesFor doc tenant).timeWindows = some tw → tw.allow = some ws →
       0 < ws.length → inAnyWindow (tzView (tw.tz.getD "UTC")) ws = false →
       preCheck doc tzView tenant capability input
         = .deny "TIME_DENIED" ("Outside allowed windows (" ++ tw.tz.getD "UTC" ++ ")"))
  ∧ (allowListOk (rulesFor doc tenant) capability →
     denyListOk (rulesFor doc tenant) capability →
     timeWindowsOk (rulesFor doc tenant) tzView →
     ∀ p, ((rulesFor doc tenant).preSchemas.getD []).find? (fun q => q.1 = capability)
         = some p → p.2 input = false →
       preCheck doc tzView tenant capability input
         = .deny "INPUT_INVALID" "Pre-schema validation failed")
  ∧ (allowListOk (rulesFor doc tenant) capability →
     denyListOk (rulesFor doc tenant) capability →
     timeWindowsOk (rulesFor doc tenant) tzView →
     (∀ p, ((rulesFor doc tenant).preSchemas.getD []).find? (fun q => q.1 = capability)
         = some p → p.2 input = true) →
       preCheck doc tzView tenant capability input = .allow) := by
  refine ⟨?_, ?_, ?_, ?_, ?_⟩
  · intro l hl hnot
    simp [preCheck, hl, hnot]
  · intro hallow l hl hmem
    rw [preCheck_eq_afterAllow doc tzView tenant capability input hallow]
    simp [preCheckAfterAllow, hl, hmem]
  · intro hallow hdeny tw ws htw hws hlen hout
    rw [preCheck_eq_afterAllow doc tzView tenant capability input hallow,
        preCheckAfterAllow_eq_afterDeny _ tzView capability input hdeny,
        preCheckAfterDeny,
        timeDenyOf_eq_some (rulesFor doc tenant) tzView tw ws htw hws hlen hout]
  · intro hallow hdeny htime p hp hfail
    rw [preCheck_eq_afterAllow doc tzView tenant capability input hallow,
        preCheckAfterAllow_eq_afterDeny _ tzView capability input hdeny,
        preCheckAfterDeny, timeDenyOf_eq_none (rulesFor doc tenant) tzView htime]
    simp [hp, hfail]
  · intro hallow hdeny htime hschema
    rw [preCheck_eq_afterAllow doc tzView tenant capability input hallow,
        preCheckAfterAllow_eq_afterDeny _ tzView capability input hdeny,
        preCheckAfterDeny, timeDenyOf_eq_none (rulesFor doc tenant) tzView htime]
    cases hp : ((rulesFor doc tenant).preSchemas.getD []).find? (fun q => q.1 = capability) with
    | none => simp [hp]
    | some p => simp [hp, hschema p hp]

/-- Witness timezone view: Wednesday noon in every zone. -/
def tzViewW : String → LocalTime := fun _ => { weekday := 3, hour := 12, minute := 0 }

/-- Witness policy: allow-list without `billing.charge`. -/
def docAllowW : PolicyDoc := { default := some { allowCapabilities := some ["patient.search"] } }

/-- Witness policy: deny-list with `billing.charge`. -/
def docDenyW : PolicyDoc := { default := some { denyCapabilities := some ["billing.charge"] } }

/-- Witness policy: Saturday-only window. -/
def docTimeW : PolicyDoc :=
  { default := some { timeWindows := some { allow := some ["Sat"] } } }

/-- Witness policy: pre-schema requiring an `id` field on capability `c`. -/
def docSchemaW : PolicyDoc :=
  { default := some { preSchemas := some [("c", fun r => (alistGet r "id").isSome)] } }

/-- Witness policy: empty document. -/
def docEmptyW : PolicyDoc := {}

/-- C4 witness: each of the five rule stages observed on a concrete policy. -/
theorem preCheck_rule_order_witness :
    preCheck docAllowW tzViewW none "billing.charge" []
      = .deny "CAPABILITY_DENIED" "Not in allowCapabilities"
  ∧ preCheck docDenyW tzViewW none "billing.charge" []
      = .deny "CAPABILITY_DENIED" "Listed in denyCapabilities"
  ∧ preCheck docTimeW tzViewW none "c" []
      = .deny "TIME_DENIED" "Outside allowed windows (UTC)"
  ∧ preCheck docSchemaW tzViewW none "c" []
      = .deny "INPUT_INVALID" "Pre-schema validation failed"
  ∧ preCheck docEmptyW tzViewW none "c" [] = .allow := by
  refine ⟨?_, ?_, ?_, ?_, ?_⟩
  · exact (preCheck_rule_order docAllowW tzViewW none "billing.charge" []).1
      ["patient.search"] rfl (by decide)
  · exact (preCheck_rule_order docDenyW tzViewW none "billing.charge" []).2.1
      (fun l hl => Option.noConfusion hl) ["billing.charge"] rfl (by decide)
  · exact (preCheck_rule_order docTimeW tzViewW none "c" []).2.2.1
      (fun l hl => Option.noConfusion hl) (fun l hl => Option.noConfusion hl)
      { allow := some ["Sat"] } ["Sat"] rfl rfl (by decide) (by decide)
  · exact (preCheck_rule_order docSchemaW tzViewW none "c" []).2.2.2.1
      (fun l hl => Option.noConfusion hl) (fun l hl => Option.noConfusion hl)
      (fun tw ws htw => Option.noConfusion htw)
      ("c", fun r => (alistGet r "id").isSome) rfl rfl
  · exact (preCheck_rule_order docEmptyW tzViewW none "c" []).2.2.2.2
      (fun l hl => Option.noConfusion hl) (fun l hl => Option.noConfusion hl)
      (fun tw ws htw => Option.noConfusion htw)
      (fun p hp => Option.noConfusion hp)

/-- One attempt lets the loop continue: normalized outcome is a plain
`failure` and the overall signal has not fired during the attempt. -/
def contFail (env : PlanEnv) (hasTimer : Bool) (i : Nat) : Prop :=
  (normalizeOutcome env hasTimer i).status = .failure
    ∧ (hasTimer && env.abortedDuring i) = false

instance (env : PlanEnv) (hasTimer : Bool) (i : Nat) :
    Decidable (contFail env hasTimer i) := by
  unfold contFail
  infer_instance

/-- The overall-timer flag of `plan`
(`ctx.timeout_ms && ctx.timeout_ms > 0`; 0 behaves as unset). -/
def planHasTimer (ctx : PlanContext) : Bool :=
  match ctx.timeout_ms with
  | some t => decide (0 < t)
  | none => false

/-- The ranked candidate list a `plan` call executes over. -/
def plannerScored (score : Tool → String → JsonRecord → ℚ)
    (procEnv : List (String × String)) (offlinePresent : Bool)
    (tools : List Tool) (ctx : PlanContext) : List (ScoredCandidate × Tool) :=
  rankCandidates score
    (discoverCandidates procEnv offlinePresent tools (ctx.capability.getD ""))
    (ctx.capability.getD "") (ctx.input.getD [])

/-- In executing mode with a capability and at least one candidate, `plan`
is the ranked loop around `execLoop`. -/
theorem plan_execute_eq (env : PlanEnv) (score : Tool → String → JsonRecord → ℚ)
    (procEnv : List (String × String)) (offlinePresent : Bool) (tools : List Tool)
    (traceId : String) (ctx : PlanContext)
    (hexec : ctx.execute ≠ some false)
    (hcap : ctx.capability.getD "" ≠ "")
    (hne : plannerScored score procEnv offlinePresent tools ctx ≠ []) :
    plan env score procEnv offlinePresent tools traceId ctx
      = ({ traceId := traceId, capability := ctx.capability.getD "",
           candidates := (plannerScored score procEnv offlinePresent tools ctx).map
             (fun s => s.1),
           selected := (execLoop env (planHasTimer ctx) 0
             (plannerScored score procEnv offlinePresent tools ctx)).selected,
           execution := some (execLoop env (planHasTimer ctx) 0
             (plannerScored score procEnv offlinePresent tools ctx)).execution },
         "request" :: "scores"
           :: (execLoop env (planHasTimer ctx) 0
                (plannerScored score procEnv offlinePresent tools ctx)).events) := by
  have hcands : (discoverCandidates procEnv offlinePresent tools
      (ctx.capability.getD "")).isEmpty = false := by
    cases hd : discoverCandidates procEnv offlinePresent tools (ctx.capability.getD "") with
    | nil =>
        exfalso
        apply hne
        simp [plannerScored, hd, rankCandidates, sortByScoreDesc]
    | cons c cs => rfl
  unfold plan
  rw [if_neg hcap]
  simp only [hcands, Bool.false_eq_true, if_false]
  rw [if_neg (not_not_intro hexec)]
  rfl

/-- Unfolding `execLoop` over one continuing-failure attempt. -/
theorem execLoop_cons_contFail (env : PlanEnv) (hasTimer : Bool) (i : Nat)
    (c : ScoredCandidate × Tool) (rest : List (ScoredCandidate × Tool))
    (hst : (normalizeOutcome env hasTimer i).status = .failure)
    (hab : (hasTimer && env.abortedDuring i) = false) :
    execLoop env hasTimer i (c :: rest)
      = { events := "attempt" :: "fallback" :: (execLoop env hasTimer (i + 1) rest).events,
          selected := (execLoop env hasTimer (i + 1) rest).selected,
          execution := (execLoop env hasTimer (i + 1) rest).execution } := by
  rw [execLoop]
  simp [hst, hab]

/-- Skipping a block of continuing failures at the head of the loop. -/
theorem execLoop_skip (env : PlanEnv) (hasTimer : Bool)
    (pre rest : List (ScoredCandidate × Tool)) (i : Nat)
    (h : ∀ j < pre.length, contFail env hasTimer (i + j)) :
    execLoop env hasTimer i (pre ++ rest)
      = { events := (List.replicate pre.length ["attempt", "fallback"]).flatten
            ++ (execLoop env hasTimer (i + pre.length) rest).events,
          selected := (execLoop env hasTimer (i + pre.length) rest).selected,
          execution := (execLoop env hasTimer (i + pre.length) rest).execution } := by
  induction pre generalizing i with
  | nil => simp
  | cons c cs ih =>
      obtain ⟨hst, hab⟩ := h 0 (by simp)
      rw [Nat.add_zero] at hst hab
      have h2 : ∀ j < cs.length, contFail env hasTimer (i + 1 + j) := by
        intro j hj
        have := h (j + 1) (by simp; omega)
        rwa [show i + (j + 1) = i + 1 + j by omega] at this
      rw [List.cons_append, execLoop_cons_contFail env hasTimer i c (cs ++ rest) hst hab,
          ih (i + 1) h2]
      simp [List.replicate_succ, show i + (cs.length + 1) = i + 1 + cs.length by omega]

/-- The attempt/fallback prefix contains exactly one `attempt` per block. -/
theorem replicate_block_count_attempt (k : Nat) :
    ((List.replicate k ["attempt", "fallback"]).flatten).count "attempt" = k := by
  induction k with
  | zero => rfl
  | succ n ih => simp [List.replicate_succ, List.count_append, ih, List.count_cons]

/-- The last element of a list ending in a fixed pair. -/
theorem getLast?_append_pair (l : List String) (x y : String) :
    (l ++ [x, y]).getLast? = some y := by
  induction l with
  | nil => rfl
  | cons a as ih =>
      rw [List.cons_append, List.getLast?_cons]
      simp [ih]

/-- C1: with execute enabled, a tool-reported `timeout` on the `k`-th
attempt (all earlier attempts being continuing failures) is terminal: the
result's execution is that very `ExecutionResult`, exactly `k + 1` attempt
events are recorded (no later-ranked candidate is tried), and the `timeout`
event is the last event of the decision's trace. -/
theorem plan_tool_timeout_terminal (env : PlanEnv)
    (score : Tool → String → JsonRecord → ℚ) (procEnv : List (String × String))
    (offlinePresent : Bool) (tools : List Tool) (traceId : String)
    (ctx : PlanContext) (k : Nat) (r : ExecutionResult)
    (hexec : ctx.execute ≠ some false)
    (hcap : ctx.capability.getD "" ≠ "")
    (hk : k < (plannerScored score procEnv offlinePresent tools ctx).length)
    (hbefore : ∀ j < k, contFail env (planHasTimer ctx) j)
    (hout : env.outcome k = .ok r)
    (hstat : r.status = .timeout) :
    (plan env score procEnv offlinePresent tools traceId ctx).1.execution = some r
  ∧ (plan env score procEnv offlinePresent tools traceId ctx).2.count "attempt" = k + 1
  ∧ (plan env score procEnv offlinePresent tools traceId ctx).2.getLast?
      = some "timeout" := by
  set scored := plannerScored score procEnv offlinePresent tools ctx with hscored
  have hne : scored ≠ [] := by
    intro h
    rw [h] at hk
    simp at hk
  rw [plan_execute_eq env score procEnv offlinePresent tools traceId ctx hexec hcap
    (hscored ▸ hne)]
  obtain ⟨c, rest, hdrop⟩ : ∃ c rest, scored.drop k = c :: rest := by
    cases hd : scored.drop k with
    | nil =>
        exfalso
        have := List.drop_eq_nil_iff.mp hd
        omega
    | cons c rest => exact ⟨c, rest, rfl⟩
  have htake : (scored.take k).length = k := by
    rw [List.length_take]
    omega
  have hnorm : normalizeOutcome env (planHasTimer ctx) k = r := by
    simp [normalizeOutcome, hout]
  have hloopk : execLoop env (planHasTimer ctx) k (c :: rest)
      = { events := ["attempt", "timeout"], selected := none, execution := r } := by
    rw [execLoop]
    simp [hnorm, hstat]
  have hsplit : execLoop env (planHasTimer ctx) 0 scored
      = { events := (List.replicate k ["attempt", "fallback"]).flatten
            ++ ["attempt", "timeout"],
          selected := none, execution := r } := by
    conv_lhs => rw [← List.take_append_drop k scored]
    rw [execLoop_skip env (planHasTimer ctx) (scored.take k) (scored.drop k) 0
      (by
        intro j hj
        rw [htake] at hj
        simpa using hbefore j hj)]
    rw [htake, hdrop]
    simp [hloopk]
  refine ⟨?_, ?_, ?_⟩
  · simp [hsplit]
  · simp [hsplit, List.count_cons, List.count_append, replicate_block_count_attempt]
  · rw [hsplit]
    show ("request" :: "scores"
      :: ((List.replicate k ["attempt", "fallback"]).flatten ++ ["attempt", "timeout"])).getLast?
        = some "timeout"
    rw [← List.cons_append, ← List.cons_append]
    exact getLast?_append_pair _ "attempt" "timeout"

/-- Constant scorer used by planner witnesses. -/
def scoreZero : Tool → String → JsonRecord → ℚ := fun _ _ _ => 0

/-- Witness plan context: `patient.search`, defaults elsewhere. -/
def ctxPS : PlanContext := { capability := some "patient.search" }

/-- Witness executor results. -/
def execFail : ExecutionResult := { status := .failure, error := some "HTTP_500" }

/-- Witness executor results. -/
def execTimeout : ExecutionResult := { status := .timeout, error := some "tool-timeout" }

/-- Witness environment: first attempt fails, second reports timeout. -/
def envC1 : PlanEnv :=
  { outcome := fun i => if i = 0 then .ok execFail else .ok execTimeout,
    abortedDuring := fun _ => false }

/-- C1 witness: two candidates, failure then tool timeout — the plan stops
at attempt 2 with the tool's timeout result last in the trace. -/
theorem plan_tool_timeout_terminal_witness :
    (plan envC1 scoreZero [] false [toolFast, toolSlow] "tr" ctxPS).1.execution
      = some execTimeout
  ∧ (plan envC1 scoreZero [] false [toolFast, toolSlow] "tr" ctxPS).2.count "attempt" = 2
  ∧ (plan envC1 scoreZero [] false [toolFast, toolSlow] "tr" ctxPS).2.getLast?
      = some "timeout" :=
  plan_tool_timeout_terminal envC1 scoreZero [] false [toolFast, toolSlow] "tr" ctxPS 1
    execTimeout (by decide) (by decide) (by decide) (by decide) (by decide) (by decide)

/-- C2: with execute enabled and a non-empty candidate list, if every
attempted candidate's outcome is a `failure`, the plan ends with
`{failure, ALL_CANDIDATES_FAILED}` — unless the overall deadline fired
during some attempt, in which case the result is a terminal `timeout`
(reason `overall-timeout`) even though that attempt returned `failure`. -/
theorem plan_all_candidates_failed (env : PlanEnv)
    (score : Tool → String → JsonRecord → ℚ) (procEnv : List (String × String))
    (offlinePresent : Bool) (tools : List Tool) (traceId : String) (ctx : PlanContext)
    (hexec : ctx.execute ≠ some false)
    (hcap : ctx.capability.getD "" ≠ "")
    (hne : plannerScored score procEnv offlinePresent tools ctx ≠ [])
    (hfail : ∀ j < (plannerScored score procEnv offlinePresent tools ctx).length,
       (normalizeOutcome env (planHasTimer ctx) j).status = .failure) :
    ((∀ j < (plannerScored score procEnv offlinePresent tools ctx).length,
        (planHasTimer ctx && env.abortedDuring j) = false) →
       (plan env score procEnv offlinePresent tools traceId ctx).1.execution
         = some { status := .failure, error := some "ALL_CANDIDATES_FAILED" })
  ∧ (∀ k, k < (plannerScored score procEnv offlinePresent tools ctx).length →
       (∀ j < k, (planHasTimer ctx && env.abortedDuring j) = false) →
       (planHasTimer ctx && env.abortedDuring k) = true →
       (plan env score procEnv offlinePresent tools traceId ctx).1.execution
         = some { status := .timeout, error := some "overall-timeout" }) := by
  set scored := plannerScored score procEnv offlinePresent tools ctx with hscored
  rw [plan_execute_eq env score procEnv offlinePresent tools traceId ctx hexec hcap
    (hscored ▸ hne)]
  constructor
  · intro hab
    have hloop : execLoop env (planHasTimer ctx) 0 scored
        = { events := (List.replicate scored.length ["attempt", "fallback"]).flatten
              ++ ["failure"],
            selected := none,
            execution := { status := .failure, error := some "ALL_CANDIDATES_FAILED" } } := by
      conv_lhs => rw [← List.append_nil scored]
      rw [execLoop_skip env (planHasTimer ctx) scored [] 0
        (by
          intro j hj
          exact ⟨by simpa using hfail j hj, by simpa using hab j hj⟩)]
      simp [execLoop]
    simp [hloop]
  · intro k hk habk habK
    obtain ⟨c, rest, hdrop⟩ : ∃ c rest, scored.drop k = c :: rest := by
      cases hd : scored.drop k with
      | nil =>
          exfalso
          have := List.drop_eq_nil_iff.mp hd
          omega
      | cons c rest => exact ⟨c, rest, rfl⟩
    have htake : (scored.take k).length = k := by
      rw [List.length_take]
      omega
    have hloopk : execLoop env (planHasTimer ctx) k (c :: rest)
        = { events := ["attempt", "fallback", "timeout"], selected := none,
            execution := { status := .timeout, error := some "overall-timeout" } } := by
      have hfk := hfail k hk
      rw [execLoop]
      simp [hfk, habK]
    have hsplit : execLoop env (planHasTimer ctx) 0 scored
        = { events := (List.replicate k ["attempt", "fallback"]).flatten
              ++ ["attempt", "fallback", "timeout"],
            selected := none,
            execution := { status := .timeout, error := some "overall-timeout" } } := by
      conv_lhs => rw [← List.take_append_drop k scored]
      rw [execLoop_skip env (planHasTimer ctx) (scored.take k) (scored.drop k) 0
        (by
          intro j hj
          rw [htake] at hj
          exact ⟨by simpa using hfail j (by omega), by simpa using habk j hj⟩)]
      rw [htake, hdrop]
      simp [hloopk]
    simp [hsplit]

/-- Witness plan context with an overall deadline of 5 ms. -/
def ctxPSt : PlanContext := { capability := some "patient.search", timeout_ms := some 5 }

/-- Witness environment: every attempt fails, signal never fires. -/
def envC2a : PlanEnv :=
  { outcome := fun _ => .ok execFail, abortedDuring := fun _ => false }

/-- Witness environment: every attempt fails, signal fires during the
second attempt. -/
def envC2b : PlanEnv :=
  { outcome := fun _ => .ok execFail, abortedDuring := fun i => decide (i = 1) }

/-- C2 witness: exhaustion yields `ALL_CANDIDATES_FAILED`; a deadline that
fires during a failing attempt yields a terminal `timeout` instead. -/
theorem plan_all_candidates_failed_witness :
    (plan envC2a scoreZero [] false [toolFast, toolSlow] "tr" ctxPS).1.execution
      = some { status := .failure, error := some "ALL_CANDIDATES_FAILED" }
  ∧ (plan envC2b scoreZero [] false [toolFast, toolSlow] "tr" ctxPSt).1.execution
      = some { status := .timeout, error := some "overall-timeout" } :=
  ⟨(plan_all_candidates_failed envC2a scoreZero [] false [toolFast, toolSlow] "tr" ctxPS
      (by decide) (by decide) (by decide) (by decide)).1 (by decide),
   (plan_all_candidates_failed envC2b scoreZero [] false [toolFast, toolSlow] "tr" ctxPSt
      (by decide) (by decide) (by decide) (by decide)).2 1 (by decide) (by decide) (by decide)⟩

/-- C5: `plan` always produces a `PlanResult` (the embedding is a total
function — the source wraps the only foreign call in `try`/`catch`), and an
executor rejection is normalized: `timeout` carrying the thrown message
when the overall signal has fired at that point, else `failure`; in the
fired case the normalized `timeout` is terminal for the plan. -/
theorem plan_never_throws_normalizes (env : PlanEnv)
    (score : Tool → String → JsonRecord → ℚ) (procEnv : List (String × String))
    (offlinePresent : Bool) (tools : List Tool) (traceId : String) (ctx : PlanContext) :
    (∃ res evs, plan env score procEnv offlinePresent tools traceId ctx = (res, evs))
  ∧ (∀ i msg, env.outcome i = .thrown msg →
      ((planHasTimer ctx && env.abortedDuring i) = true →
         normalizeOutcome env (planHasTimer ctx) i
           = { status := .timeout, error := some msg })
      ∧ ((planHasTimer ctx && env.abortedDuring i) = false →
         normalizeOutcome env (planHasTimer ctx) i
           = { status := .failure, error := some msg }))
  ∧ (∀ k msg, ctx.execute ≠ some false → ctx.capability.getD "" ≠ "" →
       k < (plannerScored score procEnv offlinePresent tools ctx).length →
       (∀ j < k, contFail env (planHasTimer ctx) j) →
       env.outcome k = .thrown msg →
       (planHasTimer ctx && env.abortedDuring k) = true →
       (plan env score procEnv offlinePresent tools traceId ctx).1.execution
         = some { status := .timeout, error := some msg }) := by
  refine ⟨⟨_, _, rfl⟩, ?_, ?_⟩
  · intro i msg hth
    constructor <;> intro hab <;> simp [normalizeOutcome, hth, hab]
  · intro k msg hexec hcap hk hbefore hth hab
    set scored := plannerScored score procEnv offlinePresent tools ctx with hscored
    have hne : scored ≠ [] := by
      intro h
      rw [h] at hk
      simp at hk
    rw [plan_execute_eq env score procEnv offlinePresent tools traceId ctx hexec hcap
      (hscored ▸ hne)]
    obtain ⟨c, rest, hdrop⟩ : ∃ c rest, scored.drop k = c :: rest := by
      cases hd : scored.drop k with
      | nil =>
          exfalso
          have := List.drop_eq_nil_iff.mp hd
          omega
      | cons c rest => exact ⟨c, rest, rfl⟩
    have htake : (scored.take k).length = k := by
      rw [List.length_take]
      omega
    have hnorm : normalizeOutcome env (planHasTimer ctx) k
        = { status := .timeout, error := some msg } := by
      simp [normalizeOutcome, hth, hab]
    have hloopk : execLoop env (planHasTimer ctx) k (c :: rest)
        = { events := ["attempt", "timeout"], selected := none,
            execution := { status := .timeout, error := some msg } } := by
      rw [execLoop]
      simp [hnorm]
    have hsplit : execLoop env (planHasTimer ctx) 0 scored
        = { events := (List.replicate k ["attempt", "fallback"]).flatten
              ++ ["attempt", "timeout"],
            selected := none,
            execution := { status := .timeout, error := some msg } } := by
      conv_lhs => rw [← List.take_append_drop k scored]
      rw [execLoop_skip env (planHasTimer ctx) (scored.take k) (scored.drop k) 0
        (by
          intro j hj
          rw [htake] at hj
          simpa using hbefore j hj)]
      rw [htake, hdrop]
      simp [hloopk]
    simp [hsplit]

/-- Witness environment: the executor's promise rejects while the overall
signal has fired. -/
def envC5 : PlanEnv :=
  { outcome := fun _ => .thrown "boom", abortedDuring := fun _ => true }

/-- C5 witness: the rejection is classified `timeout` (signal fired) and is
terminal for the plan. -/
theorem plan_never_throws_normalizes_witness :
    (plan envC5 scoreZero [] false [toolFast] "tr" ctxPSt).1.execution
      = some { status := .timeout, error := some "boom" } :=
  (plan_never_throws_normalizes envC5 scoreZero [] false [toolFast] "tr" ctxPSt).2.2 0 "boom"
    (by decide) (by decide) (by decide) (by decide) (by decide) (by decide)

/-- `planP` in executing mode with a capability and candidates is the
ranked loop around `execLoopP` (policy-aware analogue of
`plan_execute_eq`). -/
theorem planP_execute_eq (doc : PolicyDoc) (env : PlanEnv)
    (score : Tool → String → JsonRecord → ℚ) (procEnv : List (String × String))
    (offlinePresent : Bool) (tools : List Tool) (traceId : String) (ctx : PlanContext)
    (hexec : ctx.execute ≠ some false)
    (hcap : ctx.capability.getD "" ≠ "")
    (hne : plannerScored score procEnv offlinePresent tools ctx ≠ []) :
    planP doc env score procEnv offlinePresent tools traceId ctx
      = ({ traceId := traceId, capability := ctx.capability.getD "",
           candidates := (plannerScored score procEnv offlinePresent tools ctx).map
             (fun s => s.1),
           selected := (execLoopP doc ctx.tenant (ctx.capability.getD "") env
             (planHasTimer ctx) 0
             (plannerScored score procEnv offlinePresent tools ctx)).selected,
           execution := some (execLoopP doc ctx.tenant (ctx.capability.getD "") env
             (planHasTimer ctx) 0
             (plannerScored score procEnv offlinePresent tools ctx)).execution },
         "request" :: "scores"
           :: (execLoopP doc ctx.tenant (ctx.capability.getD "") env (planHasTimer ctx) 0
                (plannerScored score procEnv offlinePresent tools ctx)).events) := by
  have hcands : (discoverCandidates procEnv offlinePresent tools
      (ctx.capability.getD "")).isEmpty = false := by
    cases hd : discoverCandidates procEnv offlinePresent tools (ctx.capability.getD "") with
    | nil =>
        exfalso
        apply hne
        simp [plannerScored, hd, rankCandidates, sortByScoreDesc]
    | cons c cs => rfl
  unfold planP
  rw [if_neg hcap]
  simp only [hcands, Bool.false_eq_true, if_false]
  rw [if_neg (not_not_intro hexec)]
  rfl

/-- C3 (planner modelled from the spec, post-check from the source): when
the top-ranked candidate succeeds but its output fails `postCheck`, the
planner records a `post_fallback`, treats the attempt as a failure and
advances; with a conforming second candidate the plan selects it, ends in
that `success` result, and the trace carries exactly one `post_fallback`. -/
theorem planP_post_fallback_advances (doc : PolicyDoc) (env : PlanEnv)
    (score : Tool → String → JsonRecord → ℚ) (procEnv : List (String × String))
    (offlinePresent : Bool) (tools : List Tool) (traceId : String) (ctx : PlanContext)
    (c1 c2 : ScoredCandidate) (t1 t2 : Tool) (r0 r1 : ExecutionResult)
    (hexec : ctx.execute ≠ some false)
    (hcap : ctx.capability.getD "" ≠ "")
    (hscored : plannerScored score procEnv offlinePresent tools ctx = [(c1, t1), (c2, t2)])
    (h0 : env.outcome 0 = .ok r0) (h0s : r0.status = .success)
    (hpost0 : postCheck doc ctx.tenant (ctx.capability.getD "") (r0.output.getD []) ≠ .pass)
    (hab0 : (planHasTimer ctx && env.abortedDuring 0) = false)
    (h1 : env.outcome 1 = .ok r1) (h1s : r1.status = .success)
    (hpost1 : postCheck doc ctx.tenant (ctx.capability.getD "") (r1.output.getD []) = .pass) :
    (planP doc env score procEnv offlinePresent tools traceId ctx).1.selected = some t2.id
  ∧ (planP doc env score procEnv offlinePresent tools traceId ctx).1.execution = some r1
  ∧ (planP doc env score procEnv offlinePresent tools traceId ctx).2.count "post_fallback"
      = 1 := by
  have hne : plannerScored score procEnv offlinePresent tools ctx ≠ [] := by
    rw [hscored]
    intro h
    cases h
  rw [planP_execute_eq doc env score procEnv offlinePresent tools traceId ctx hexec hcap hne,
      hscored]
  obtain ⟨cd, dd, hfail0⟩ : ∃ cd dd,
      postCheck doc ctx.tenant (ctx.capability.getD "") (r0.output.getD [])
        = .fail cd dd := by
    cases hpc : postCheck doc ctx.tenant (ctx.capability.getD "") (r0.output.getD []) with
    | pass => exact absurd hpc hpost0
    | fail cd dd => exact ⟨cd, dd, rfl⟩
  have hl1 : execLoopP doc ctx.tenant (ctx.capability.getD "") env (planHasTimer ctx) 1
      [(c2, t2)]
      = { events := ["attempt", "selected", "success"], selected := some t2.id,
          execution := r1 } := by
    rw [execLoopP]
    simp [normalizeOutcome, h1, h1s, hpost1]
  have hl0 : execLoopP doc ctx.tenant (ctx.capability.getD "") env (planHasTimer ctx) 0
      [(c1, t1), (c2, t2)]
      = { events := ["attempt", "post_fallback", "attempt", "selected", "success"],
          selected := some t2.id, execution := r1 } := by
    rw [execLoopP]
    simp [normalizeOutcome, h0, h0s, hfail0, hab0, hl1]
  rw [hl0]
  exact ⟨rfl, rfl, rfl⟩

/-- Post-schema for `patient.search`: output must carry `id` and `name`. -/
def postSchemaPS : JSONSchema :=
  fun r => (alistGet r "id").isSome && (alistGet r "name").isSome

/-- Witness policy with that post-schema as the default rules. -/
def docPost : PolicyDoc :=
  { default := some { postSchemas := some [("patient.search", postSchemaPS)] } }

/-- Bad tool output: `name` missing. -/
def execBadOut : ExecutionResult :=
  { status := .success, latency_ms := some 5, output := some [("id", JsonVal.str "x")] }

/-- Good tool output: schema-conforming. -/
def execGoodOut : ExecutionResult :=
  { status := .success, latency_ms := some 5,
    output := some [("id", JsonVal.str "y"), ("name", JsonVal.str "Alice")] }

/-- Witness environment for the post-check scenario. -/
def envC3 : PlanEnv :=
  { outcome := fun i => if i = 0 then .ok execBadOut else .ok execGoodOut,
    abortedDuring := fun _ => false }

/-- C3 witness (the repository's post-fallback e2e scenario): `bad` ranked
first returns a non-conforming output, `good` conforms — the plan selects
`good`, succeeds, and records one `post_fallback`.  Both tools score
equally (as in the e2e test, where neither declares an SLA or cost), so the
stable sort keeps registry order `[bad, good]`. -/
theorem planP_post_fallback_advances_witness :
    (planP docPost envC3 scoreZero [] false [toolBad, toolGood]
        "tr" ctxPS).1.selected = some toolGood.id
  ∧ (planP docPost envC3 scoreZero [] false [toolBad, toolGood]
        "tr" ctxPS).1.execution = some execGoodOut
  ∧ (planP docPost envC3 scoreZero [] false [toolBad, toolGood]
        "tr" ctxPS).2.count "post_fallback" = 1 :=
  planP_post_fallback_advances docPost envC3 scoreZero [] false
    [toolBad, toolGood] "tr" ctxPS
    { toolId := "bad", score := 0 } { toolId := "good", score := 0 }
    toolBad toolGood execBadOut execGoodOut
    (by decide) (by decide) (by decide) (by decide) (by decide)
    (by decide) (by decide) (by decide) (by decide) (by decide)

/-- Filtering by a key-only predicate that accepts `k` preserves lookups
of `k`. -/
theorem alistGet_filter_key {α : Type} (l : List (String × α)) (k : String)
    (q : String → Bool) (hq : q k = true) :
    alistGet (l.filter (fun p => q p.1)) k = alistGet l k := by
  induction l with
  | nil => rfl
  | cons p ps ih =>
      by_cases hp : p.1 = k
      · have : q p.1 = true := by rw [hp]; exact hq
        simp [List.filter_cons, this, hq, alistGet, List.find?, hp]
      · by_cases hqp : q p.1 = true
        · simp [List.filter_cons, hqp, alistGet, List.find?, hp] at ih ⊢
          exact ih
        · simp [List.filter_cons, hqp, alistGet, List.find?, hp] at ih ⊢
          exact ih


/-- A live (non-expired) id is not in the TTL pass's deletion set. -/
theorem TraceStore.expiredIds_not_contains (st : TraceStore) (now : Nat) (id : String)
    (t : Trace) (h : alistGet st.traces id = some t)
    (hexp : st.isExpired t now = false) :
    (st.expiredIds now).contains id = false := by
  have hnm : id ∉ st.expiredIds now := by
    intro hmem
    rw [TraceStore.expiredIds, List.mem_filter] at hmem
    obtain ⟨-, hbad⟩ := hmem
    rw [h] at hbad
    simp [hexp] at hbad
  simpa using hnm

/-- The TTL pass keeps a live id's binding. -/
theorem TraceStore.ttlPrune_lookup (st : TraceStore) (now : Nat) (id : String)
    (t : Trace) (h : alistGet st.traces id = some t)
    (hexp : st.isExpired t now = false) :
    alistGet (st.ttlPrune now).traces id = some t := by
  show alistGet (st.traces.filter
    (fun p => !((st.expiredIds now).contains p.1))) id = some t
  have hkey := alistGet_filter_key st.traces id
    (fun s => !((st.expiredIds now).contains s))
    (by
      have := TraceStore.expiredIds_not_contains st now id t h hexp
      simpa using this)
  rw [← h]
  exact hkey

/-- The capacity pass keeps the binding of the newest id (unique and last
in the order list) whenever the capacity bound is at least one. -/
theorem TraceStore.capPrune_lookup_last (st : TraceStore) (id : String) (t : Trace)
    (h : alistGet st.traces id = some t)
    (horder : ∃ pre, st.order = pre ++ [id] ∧ id ∉ pre)
    (hmax : 1 ≤ st.maxTraces) :
    alistGet st.capPrune.traces id = some t := by
  obtain ⟨pre, hor, hnin⟩ := horder
  show alistGet (st.traces.filter
    (fun p => !((st.order.take (st.order.length - st.maxTraces)).contains p.1))) id = some t
  have hq : (fun s => !((st.order.take (st.order.length - st.maxTraces)).contains s)) id
      = true := by
    show (!((st.order.take (st.order.length - st.maxTraces)).contains id)) = true
    rw [hor]
    have hk : (pre ++ [id]).length - st.maxTraces ≤ pre.length := by
      simp only [List.length_append, List.length_cons, List.length_nil]
      omega
    rw [List.take_append_of_le_length hk]
    have hno : id ∉ pre.take ((pre ++ [id]).length - st.maxTraces) :=
      fun hm => hnin (List.take_subset _ pre hm)
    simpa using hno
  have hkey := alistGet_filter_key st.traces id
    (fun s => !((st.order.take (st.order.length - st.maxTraces)).contains s)) hq
  rw [← h]
  exact hkey

/-- `create` on a fresh id registers an empty trace that survives both
pruning passes: it is not expired at its own creation instant, and the
capacity pass evicts from the head while the new id is the tail. -/
theorem TraceStore.create_fresh_lookup (st : TraceStore) (id : String) (now : Nat)
    (horder : id ∉ st.order)
    (hmax : 1 ≤ st.maxTraces) :
    alistGet (st.create id now).traces id
      = some { id := id, createdAt := now, events := [] } := by
  unfold TraceStore.create TraceStore.prune
  set fresh : Trace := { id := id, createdAt := now, events := [] } with hfr
  set st1 : TraceStore :=
    { st with traces := alistSet st.traces id fresh, order := st.order ++ [id] } with hst1
  have h1 : alistGet st1.traces id = some fresh := alistGet_set_self st.traces id fresh
  have hexp : st1.isExpired fresh now = false := by
    simp only [TraceStore.isExpired, hfr, Nat.sub_self]
    simp
  have h2 : alistGet (st1.ttlPrune now).traces id = some fresh :=
    TraceStore.ttlPrune_lookup st1 now id fresh h1 hexp
  have hqid : (st1.expiredIds now).contains id = false :=
    TraceStore.expiredIds_not_contains st1 now id fresh h1 hexp
  have hord2 : (st1.ttlPrune now).order
      = st.order.filter (fun i => !((st1.expiredIds now).contains i)) ++ [id] := by
    show (st.order ++ [id]).filter (fun i => !((st1.expiredIds now).contains i))
      = st.order.filter (fun i => !((st1.expiredIds now).contains i)) ++ [id]
    have hqid2 : id ∉ st1.expiredIds now := by simpa using hqid
    rw [List.filter_append]
    simp [hqid, hqid2]
  apply TraceStore.capPrune_lookup_last (st1.ttlPrune now) id fresh h2
  · refine ⟨st.order.filter (fun i => !((st1.expiredIds now).contains i)), hord2, ?_⟩
    intro hm
    exact horder (List.mem_of_mem_filter hm)
  · exact hmax

/-- `record` on a mapped id appends exactly one event. -/
theorem TraceStore.record_lookup (st : TraceStore) (id ty : String) (now : Nat)
    (t : Trace) (h : alistGet st.traces id = some t) :
    alistGet (st.record id ty now).traces id
      = some { t with events := t.events ++ [{ ts := now, type := ty }] } := by
  unfold TraceStore.record
  rw [h]
  exact alistGet_set_self st.traces id _

/-- `record` never touches the TTL bound. -/
theorem TraceStore.record_ttl (st : TraceStore) (id ty : String) (now : Nat) :
    (st.record id ty now).ttlMs = st.ttlMs := by
  unfold TraceStore.record
  cases alistGet st.traces id <;> rfl

/-- Folding `record` over an event-type list appends them in order. -/
theorem TraceStore.foldRecord_lookup (evs : List String) (st : TraceStore)
    (id : String) (now : Nat) (t : Trace) (h : alistGet st.traces id = some t) :
    alistGet ((evs.foldl (fun s ty => s.record id ty now) st).traces) id
      = some { t with events := t.events ++ evs.map (fun ty => { ts := now, type := ty }) } := by
  induction evs generalizing st t with
  | nil => simpa using h
  | cons e es ih =>
      rw [List.foldl_cons]
      have h2 := TraceStore.record_lookup st id e now t h
      have h3 := ih (st.record id e now) _ h2
      simpa [List.append_assoc] using h3

/-- Folding `record` never touches the TTL bound. -/
theorem TraceStore.foldRecord_ttl (evs : List String) (st : TraceStore)
    (id : String) (now : Nat) :
    ((evs.foldl (fun s ty => s.record id ty now) st)).ttlMs = st.ttlMs := by
  induction evs generalizing st with
  | nil => rfl
  | cons e es ih => rw [List.foldl_cons, ih, TraceStore.record_ttl]

/-- `get` on a mapped, non-expired id returns the trace. -/
theorem TraceStore.get_live (st : TraceStore) (id : String) (now2 : Nat) (t : Trace)
    (h : alistGet st.traces id = some t) (hexp : st.isExpired t now2 = false) :
    (st.get id now2).1 = some t := by
  unfold TraceStore.get
  rw [h]
  simp [hexp]

/-- Every branch of `plan` records `request` first. -/
theorem plan_events_head (env : PlanEnv) (score : Tool → String → JsonRecord → ℚ)
    (procEnv : List (String × String)) (offlinePresent : Bool) (tools : List Tool)
    (traceId : String) (ctx : PlanContext) :
    (plan env score procEnv offlinePresent tools traceId ctx).2.head? = some "request" := by
  unfold plan
  by_cases h1 : ctx.capability.getD "" = ""
  · rw [if_pos h1]
    rfl
  · rw [if_neg h1]
    by_cases h2 : (discoverCandidates procEnv offlinePresent tools
        (ctx.capability.getD "")).isEmpty = true
    · rw [if_pos h2]
      rfl
    · rw [if_neg h2]
      by_cases h3 : ¬ (ctx.execute ≠ some false)
      · rw [if_pos h3]
        split <;> rfl
      · rw [if_neg h3]
        rfl

/-- Every branch of `plan` echoes the created trace id. -/
theorem plan_traceId (env : PlanEnv) (score : Tool → String → JsonRecord → ℚ)
    (procEnv : List (String × String)) (offlinePresent : Bool) (tools : List Tool)
    (traceId : String) (ctx : PlanContext) :
    (plan env score procEnv offlinePresent tools traceId ctx).1.traceId = traceId := by
  unfold plan
  by_cases h1 : ctx.capability.getD "" = ""
  · rw [if_pos h1]
  · rw [if_neg h1]
    by_cases h2 : (discoverCandidates procEnv offlinePresent tools
        (ctx.capability.getD "")).isEmpty = true
    · rw [if_pos h2]
    · rw [if_neg h2]
      by_cases h3 : ¬ (ctx.execute ≠ some false)
      · rw [if_pos h3]
        split <;> rfl
      · rw [if_neg h3]

/-- One `plan` call against a live trace store: create the trace, run the
planner, record its events under the new id (the decision's interleaving
collapses to this sequence because the store is only touched through
`create`/`record` within the call). -/
def runPlanWithStore (st : TraceStore) (id : String) (now : Nat) (env : PlanEnv)
    (score : Tool → String → JsonRecord → ℚ) (procEnv : List (String × String))
    (offlinePresent : Bool) (tools : List Tool) (ctx : PlanContext) :
    PlanResult × TraceStore :=
  ((plan env score procEnv offlinePresent tools id ctx).1,
   (plan env score procEnv offlinePresent tools id ctx).2.foldl
     (fun s ty => s.record id ty now) (st.create id now))

/-- C9: every plan result carries the created trace id, and before expiry
that id resolves through the trace store to a trace whose first recorded
event is `request` — on every path, including missing capability and
no-candidates. -/
theorem plan_trace_first_event_request (st : TraceStore) (id : String) (now now2 : Nat)
    (env : PlanEnv) (score : Tool → String → JsonRecord → ℚ)
    (procEnv : List (String × String)) (offlinePresent : Bool) (tools : List Tool)
    (ctx : PlanContext)
    (horder : id ∉ st.order)
    (hmax : 1 ≤ st.maxTraces)
    (hlive : now2 - now ≤ st.ttlMs) :
    (runPlanWithStore st id now env score procEnv offlinePresent tools ctx).1.traceId = id
  ∧ ∃ t, ((runPlanWithStore st id now env score procEnv offlinePresent tools
        ctx).2.get id now2).1 = some t
      ∧ (t.events.map (fun e => e.type)).head? = some "request" := by
  constructor
  · exact plan_traceId env score procEnv offlinePresent tools id ctx
  · unfold runPlanWithStore
    obtain ⟨tl, htl⟩ : ∃ tl, (plan env score procEnv offlinePresent tools id ctx).2
        = "request" :: tl := by
      have hh := plan_events_head env score procEnv offlinePresent tools id ctx
      cases hc : (plan env score procEnv offlinePresent tools id ctx).2 with
      | nil => rw [hc] at hh; cases hh
      | cons a tll =>
          rw [hc] at hh
          simp only [List.head?_cons, Option.some.injEq] at hh
          exact ⟨tll, by rw [hh]⟩
    rw [htl]
    have hcr := TraceStore.create_fresh_lookup st id now horder hmax
    have hfold : alistGet ((("request" :: tl).foldl
        (fun s ty => s.record id ty now) (st.create id now)).traces) id
        = some { id := id, createdAt := now,
                 events := { ts := now, type := "request" }
                   :: tl.map (fun ty => { ts := now, type := ty }) } :=
      TraceStore.foldRecord_lookup ("request" :: tl) (st.create id now) id now _ hcr
    refine ⟨_, TraceStore.get_live _ id now2 _ hfold ?_, ?_⟩
    · simp only [TraceStore.isExpired, TraceStore.foldRecord_ttl]
      have hteq : (st.create id now).ttlMs = st.ttlMs := rfl
      rw [hteq]
      simp only [decide_eq_false_iff_not]
      intro hgt
      have hgt2 : now2 - now > st.ttlMs := hgt
      omega
    · simp

/-- C9 witness: a plan with a missing capability against a default store —
the trace resolves and its first event is `request`. -/
theorem plan_trace_first_event_request_witness :
    (runPlanWithStore (mkTraceStore none none) "tr1" 0 envC2a scoreZero [] false
        [toolFast] {}).1.traceId = "tr1"
  ∧ ∃ t, ((runPlanWithStore (mkTraceStore none none) "tr1" 0 envC2a scoreZero [] false
        [toolFast] {}).2.get "tr1" 5).1 = some t
      ∧ (t.events.map (fun e => e.type)).head? = some "request" :=
  plan_trace_first_event_request (mkTraceStore none none) "tr1" 0 5 envC2a scoreZero []
    false [toolFast] {} (by decide) (by decide) (by decide)

deriving instance DecidableEq for Except

/-- Whether a parsed registry file passes its (extension-selected) Ajv
validation. -/
def docValid (vReg : List Tool → String → Bool) (vTool : Tool → Bool) :
    ParsedDoc → Bool
  | .registryDoc ts u => vReg ts u
  | .toolDoc t => vTool t

/-- If some matching file fails validation, `loadAll` throws. -/
theorem loadAllAux_error_of_invalid (vReg : List Tool → String → Bool)
    (vTool : Tool → Bool) (files : List RegFile) (acc : List Tool)
    (h : ∃ f ∈ files, matchesRegExt f.name = true ∧ docValid vReg vTool f.doc = false) :
    ∃ e, loadAllAux vReg vTool files acc = .error e := by
  induction files generalizing acc with
  | nil => simp at h
  | cons f fs ih =>
      obtain ⟨g, hg, hext, hbad⟩ := h
      rw [List.mem_cons] at hg
      by_cases hfirst : matchesRegExt f.name = true ∧ docValid vReg vTool f.doc = false
      · obtain ⟨hfe, hfb⟩ := hfirst
        cases hd : f.doc with
        | registryDoc ts u =>
            rw [hd] at hfb
            simp only [docValid] at hfb
            exact ⟨"Invalid registry file " ++ f.name, by simp [loadAllAux, hfe, hd, hfb]⟩
        | toolDoc t =>
            rw [hd] at hfb
            simp only [docValid] at hfb
            exact ⟨"Invalid tool file " ++ f.name, by simp [loadAllAux, hfe, hd, hfb]⟩
      · have hrest : ∃ g ∈ fs, matchesRegExt g.name = true
            ∧ docValid vReg vTool g.doc = false := by
          rcases hg with hg | hg
          · exact absurd (hg ▸ ⟨hext, hbad⟩) hfirst
          · exact ⟨g, hg, hext, hbad⟩
        by_cases hme : matchesRegExt f.name = true
        · cases hd : f.doc with
          | registryDoc ts u =>
              have hv : vReg ts u = true := by
                by_contra hv
                exact hfirst ⟨hme, by simp [hd, docValid, Bool.eq_false_iff.mpr hv]⟩
              obtain ⟨e, he⟩ := ih (acc ++ ts) hrest
              exact ⟨e, by simp [loadAllAux, hme, hd, hv, he]⟩
          | toolDoc t =>
              have hv : vTool t = true := by
                by_contra hv
                exact hfirst ⟨hme, by simp [hd, docValid, Bool.eq_false_iff.mpr hv]⟩
              obtain ⟨e, he⟩ := ih (acc ++ [t]) hrest
              exact ⟨e, by simp [loadAllAux, hme, hd, hv, he]⟩
        · obtain ⟨e, he⟩ := ih acc hrest
          exact ⟨e, by simp [loadAllAux, hme, he]⟩

/-- C6: a rebuild is atomic with respect to readers: if any matching file
fails validation, `loadAll` throws before the final snapshot assignment —
the whole rebuild fails as a unit and `getRegistry()` still returns the
previous snapshot unchanged; only a fully validated run publishes, and it
publishes the complete accumulated tool list at once (no partial list is
observable). -/
theorem loadAll_atomic (vReg : List Tool → String → Bool) (vTool : Tool → Bool)
    (current : ToolRegistry) (files : List RegFile) (now : String) :
    ((∃ f ∈ files, matchesRegExt f.name = true ∧ docValid vReg vTool f.doc = false) →
       ∃ e, loadAllStep vReg vTool current files now = (current, some e))
  ∧ (∀ ts, loadAllAux vReg vTool files [] = .ok ts →
       loadAllStep vReg vTool current files now = ({ tools := ts, updatedAt := now }, none)) := by
  constructor
  · intro h
    obtain ⟨e, he⟩ := loadAllAux_error_of_invalid vReg vTool files [] h
    exact ⟨e, by simp [loadAllStep, he]⟩
  · intro ts hts
    simp [loadAllStep, hts]

/-- Witness registry state and directory listing: one valid tool file, one
invalid one, plus a non-matching file that is skipped. -/
def regPrev : ToolRegistry := { tools := [toolFast], updatedAt := "2024-01-01T00:00:00Z" }

/-- Validators for the loader witness: a tool validates iff its id is
non-empty; a registry document never validates. -/
def vToolW : Tool → Bool := fun t => t.id ≠ ""

/-- Registry-document validator for the loader witness. -/
def vRegW : List Tool → String → Bool := fun _ _ => false

/-- The invalid tool (empty id) used by the loader witness. -/
def toolNoId : Tool :=
  { id := "", name := "X", version := "1.0.0", capabilities := [{ name := "c" }] }

/-- C6 witness: with an invalid file present the step throws and keeps the
previous snapshot; without it the step publishes the full new list. -/
theorem loadAll_atomic_witness :
    (∃ e, loadAllStep vRegW vToolW regPrev
        [{ name := "good.yaml", doc := .toolDoc toolSlow },
         { name := "bad.json", doc := .toolDoc toolNoId },
         { name := "notes.txt", doc := .toolDoc toolFast }] "2024-02-02T00:00:00Z"
      = (regPrev, some e))
  ∧ loadAllStep vRegW vToolW regPrev
        [{ name := "good.yaml", doc := .toolDoc toolSlow }] "2024-02-02T00:00:00Z"
      = ({ tools := [toolSlow], updatedAt := "2024-02-02T00:00:00Z" }, none) :=
  ⟨(loadAll_atomic vRegW vToolW regPrev
      [{ name := "good.yaml", doc := .toolDoc toolSlow },
       { name := "bad.json", doc := .toolDoc toolNoId },
       { name := "notes.txt", doc := .toolDoc toolFast }] "2024-02-02T00:00:00Z").1
      ⟨{ name := "bad.json", doc := .toolDoc toolNoId },
        List.mem_cons.mpr (Or.inr (List.mem_cons.mpr (Or.inl rfl))),
        by decide, by decide⟩,
   (loadAll_atomic vRegW vToolW regPrev
      [{ name := "good.yaml", doc := .toolDoc toolSlow }] "2024-02-02T00:00:00Z").2
      [toolSlow] rfl⟩

/-- C8 counterexample: the claim says that once `ttlMs` has elapsed,
`record` is a silent no-op appending nothing (as for an unknown id); but
`record` consults the raw map without an expiry check, so on an expired but
not-yet-pruned trace it appends.  Here the trace (created at 0, TTL 1 ms)
is expired at time 5 and holds 0 events; `record` at time 5 grows it to 1
event — landing in a trace that `get` (rightly) reports as absent. -/
theorem traceStore_record_after_expiry_counterexample :
    ((mkTraceStore (some 10) (some 1)).create "a" 0).isExpired
      { id := "a", createdAt := 0, events := [] } 5 = true
  ∧ (alistGet (((mkTraceStore (some 10) (some 1)).create "a" 0)).traces
      "a").map (fun t => t.events.length) = some 0
  ∧ ((((mkTraceStore (some 10) (some 1)).create "a" 0).record "a" "x" 5).get "a" 5).1 = none
  ∧ (alistGet ((((mkTraceStore (some 10) (some 1)).create "a" 0).record "a" "x" 5)).traces
      "a").map (fun t => t.events.length) = some 1 := by
  decide

/-- Removing a key from an association list makes its lookup absent. -/
theorem alistGet_erase_self {α : Type} (l : List (String × α)) (k : String) :
    alistGet (l.filter (fun p => p.1 ≠ k)) k = none := by
  induction l with
  | nil => rfl
  | cons p ps ih =>
      by_cases hp : p.1 = k
      · simpa [List.filter_cons, hp] using ih
      · simpa [List.filter_cons, hp, alistGet, List.find?] using ih

/-- C8 amended: after expiry `get` lazily deletes the trace and returns
absent; `record` is a silent no-op only for ids absent from the underlying
map (never created, pruned, or already removed by a `get`); for an expired
trace still resident in the map, `record` appends the event — the append
is unobservable through `get`, which deletes the expired trace. -/
theorem traceStore_ttl_amended (st : TraceStore) (id : String) (now : Nat) :
    (∀ t, alistGet st.traces id = some t → st.isExpired t now = true →
       (st.get id now).1 = none ∧ alistGet ((st.get id now).2).traces id = none)
  ∧ (∀ ty, alistGet st.traces id = none → st.record id ty now = st)
  ∧ (∀ t ty, alistGet st.traces id = some t →
       alistGet (st.record id ty now).traces id
         = some { t with events := t.events ++ [{ ts := now, type := ty }] }) := by
  refine ⟨?_, ?_, ?_⟩
  · intro t h hexp
    unfold TraceStore.get
    rw [h]
    simp only [hexp, if_true]
    exact ⟨trivial, alistGet_erase_self st.traces id⟩
  · intro ty h
    unfold TraceStore.record
    rw [h]
  · intro t ty h
    exact TraceStore.record_lookup st id ty now t h

/-- C8 amended-claim witness: on a store whose only trace (created at 0,
TTL 1 ms) is queried at time 5 — `get` deletes and returns absent, `record`
under an unknown id is a no-op, and `record` under the expired resident id
appends. -/
theorem traceStore_ttl_amended_witness :
    ((((mkTraceStore (some 10) (some 1)).create "a" 0).get "a" 5).1 = none
      ∧ alistGet ((((mkTraceStore (some 10) (some 1)).create "a" 0).get "a" 5).2).traces "a"
          = none)
  ∧ ((mkTraceStore (some 10) (some 1)).create "a" 0).record "b" "x" 5
      = (mkTraceStore (some 10) (some 1)).create "a" 0
  ∧ alistGet ((((mkTraceStore (some 10) (some 1)).create "a" 0)).record "a" "x" 5).traces "a"
      = some { id := "a", createdAt := 0, events := [{ ts := 5, type := "x" }] } :=
  ⟨(traceStore_ttl_amended ((mkTraceStore (some 10) (some 1)).create "a" 0) "a" 5).1
      { id := "a", createdAt := 0, events := [] } (by decide) (by decide),
   (traceStore_ttl_amended ((mkTraceStore (some 10) (some 1)).create "a" 0) "b" 5).2.1
      "x" (by decide),
   (traceStore_ttl_amended ((mkTraceStore (some 10) (some 1)).create "a" 0) "a" 5).2.2
      { id := "a", createdAt := 0, events := [] } "x" (by decide)⟩
